import Mathlib

/-!
# go-tfe-cleanup

A shallow embedding of `main.go`: the workspace scanner
(`ListWorkspacesWithRunStatus`), the run queue fetcher (`ListWaitingRuns`),
the action dispatcher (`RunAction`) and the disposal loop of `main`.

The orchestration service is an external collaborator.  It is modelled as a
state machine `Service σ`: every call takes the service state and returns a
response together with the next state, so a response may depend on everything
that happened before.  The client-side `World` carries the service state, the
ghost trace of the service calls made so far (request and response) and the
log lines written so far.  The two unbounded `for` loops take a fuel
argument; an exhausted fuel is reported as `none` next to the world reached.
-/

namespace TfeCleanup

/-- Go `error` values. -/
abbrev Error := String

namespace tfe

/-- The type `tfe.RunStatus` is a Go string type. -/
abbrev RunStatus := String

/-- The constant `tfe.RunCostEstimated`. -/
def RunCostEstimated : RunStatus := "cost_estimated"

/-- The constant `tfe.RunPending`. -/
def RunPending : RunStatus := "pending"

/-- The fields of `tfe.Run` the program reads. -/
structure Run where
  ID : String
  Status : RunStatus
deriving DecidableEq, Repr

/-- The fields of `tfe.Workspace` the program reads; `CurrentRun` may be nil. -/
structure Workspace where
  ID : String
  Name : String
  AutoApply : Bool
  CurrentRun : Option Run
deriving DecidableEq, Repr

/-- A page of runs: `tfe.RunList` with its `Pagination.NextPage`. -/
structure RunList where
  Items : List Run
  NextPage : Int
deriving DecidableEq, Repr

/-- A page of workspaces: `tfe.WorkspaceList` with its `Pagination.NextPage`. -/
structure WorkspaceList where
  Items : List Workspace
  NextPage : Int
deriving DecidableEq, Repr

end tfe

/-- The struct `Run` of `main.go`. -/
structure Run where
  ID : String
  Status : tfe.RunStatus
deriving DecidableEq, Repr

/-- The type `Runs` of `main.go`. -/
abbrev Runs := List Run

/-- The struct `Workspace` of `main.go`. -/
structure Workspace where
  ID : String
  Name : String
  AutoApply : Bool
  Runs : List Run
deriving DecidableEq, Repr

/-- The type `Workspaces` of `main.go`. -/
abbrev Workspaces := List Workspace

def APPLY : String := "Apply"

def DISCARD : String := "Discard"

def CANCEL : String := "Cancel"

def SKIP : String := "Skip"

/-- The response of a list call: a page or an error. -/
inductive Resp (α : Type) where
  | ok (page : α)
  | error (err : Error)
deriving DecidableEq, Repr

/-- One service call, with the request sent and the response received. -/
inductive Event where
  | workspacesList (org search : String) (page : Int) (resp : Resp tfe.WorkspaceList)
  | runsList (workspaceID : String) (page : Int) (resp : Resp tfe.RunList)
  | runsApply (runID comment : String) (resp : Option Error)
  | runsDiscard (runID comment : String) (resp : Option Error)
  | runsCancel (runID comment : String) (resp : Option Error)
deriving DecidableEq, Repr

/-- The orchestration service as seen through the `tfe.Client` methods the
program calls.  `WorkspacesList s org search page` is `c.Workspaces.List` with
`Search: search`, `Include: current_run` and `PageNumber: page`; `RunsList s
workspaceID page` is `c.Runs.List`; the three actions take the run ID and the
comment. -/
structure Service (σ : Type) where
  WorkspacesList : σ → String → String → Int → Resp tfe.WorkspaceList × σ
  RunsList : σ → String → Int → Resp tfe.RunList × σ
  RunsApply : σ → String → String → Option Error × σ
  RunsDiscard : σ → String → String → Option Error × σ
  RunsCancel : σ → String → String → Option Error × σ

/-- The state the program runs in: the service state, the trace of service
calls made so far and the lines written with `log.Printf`. -/
structure World (σ : Type) where
  svc : σ
  calls : List Event
  logs : List String

/-- A world with a fresh trace and no log line. -/
def World.start {σ : Type} (s : σ) : World σ :=
  { svc := s, calls := [], logs := [] }

/-- The world after a service call: new service state, one more event. -/
def World.record {σ : Type} (w : World σ) (s : σ) (ev : Event) : World σ :=
  { svc := s, calls := w.calls ++ [ev], logs := w.logs }

/-- The world after `log.Printf`/`log.Println` wrote one line; a line is the
message, without the date and time the standard logger puts in front. -/
def World.log {σ : Type} (w : World σ) (line : String) : World σ :=
  { svc := w.svc, calls := w.calls, logs := w.logs ++ [line] }

/-- The inner loop of `ListWaitingRuns` (lines 124-131): every item whose
status is cost-estimated or pending is appended to `runs`. -/
def appendWaiting (runs : Runs) (items : List tfe.Run) : Runs :=
  items.foldl
    (fun acc run =>
      if run.Status = tfe.RunCostEstimated ∨ run.Status = tfe.RunPending then
        acc ++ [{ ID := run.ID, Status := run.Status }]
      else acc)
    runs

/-- The condition of line 134: `len(r.Items) > 0 &&
r.Items[len(r.Items)-1].Status == tfe.RunPending && r.NextPage > n`. -/
def continuePaging (r : tfe.RunList) (n : Int) : Bool :=
  decide (0 < r.Items.length) &&
  (match r.Items.get? (r.Items.length - 1) with
   | some run => decide (run.Status = tfe.RunPending)
   | none => false) &&
  decide (r.NextPage > n)

/-- The `for` loop of `ListWaitingRuns` (lines 113-139) with loop state `n`
and `runs`.  The result is `some (runs, err)` when the function returns and
`none` when the fuel is exhausted. -/
def ListWaitingRunsLoop {σ : Type} (S : Service σ) (workspaceID : String) :
    Nat → Int → Runs → World σ → Option (Runs × Option Error) × World σ
  | 0, _, _, w => (none, w)
  | fuel + 1, n, runs, w =>
    let r := S.RunsList w.svc workspaceID n
    let w1 := w.record r.2 (Event.runsList workspaceID n r.1)
    match r.1 with
    | Resp.error err => (some (runs, some err), w1)
    | Resp.ok page =>
      if continuePaging page n then
        ListWaitingRunsLoop S workspaceID fuel page.NextPage (appendWaiting runs page.Items) w1
      else (some (appendWaiting runs page.Items, none), w1)

/-- The method `ListWaitingRuns`: the loop started with `runs` empty and
`n := 0`. -/
def ListWaitingRuns {σ : Type} (S : Service σ) (workspaceID : String) (fuel : Nat)
    (w : World σ) : Option (Runs × Option Error) × World σ :=
  ListWaitingRunsLoop S workspaceID fuel 0 [] w

/-- The inner loop of `ListWorkspacesWithRunStatus` (lines 160-175) over the
items of one page.  `some (workspaces, none)` means the loop ran to its end,
`some (workspaces, some err)` is the early `return &workspaces, err`, `none`
means the run queue fetch ran out of fuel. -/
def scanItems {σ : Type} (S : Service σ) (runStatus : tfe.RunStatus) (rfuel : Nat) :
    List tfe.Workspace → Workspaces → World σ → Option (Workspaces × Option Error) × World σ
  | [], workspaces, w => (some (workspaces, none), w)
  | ws :: rest, workspaces, w =>
    match ws.CurrentRun with
    | none => scanItems S runStatus rfuel rest workspaces w
    | some cur =>
      if cur.Status = runStatus then
        match ListWaitingRuns S ws.ID rfuel w with
        | (none, w1) => (none, w1)
        | (some (_, some err), w1) => (some (workspaces, some err), w1)
        | (some (runs, none), w1) =>
          scanItems S runStatus rfuel rest
            (workspaces ++ [{ ID := ws.ID, Name := ws.Name, AutoApply := ws.AutoApply,
                              Runs := runs }]) w1
      else scanItems S runStatus rfuel rest workspaces w

/-- The `for` loop of `ListWorkspacesWithRunStatus` (lines 145-182) with loop
state `n` and `workspaces`. -/
def ListWorkspacesLoop {σ : Type} (S : Service σ) (org search : String)
    (runStatus : tfe.RunStatus) (rfuel : Nat) :
    Nat → Int → Workspaces → World σ → Option (Workspaces × Option Error) × World σ
  | 0, _, _, w => (none, w)
  | fuel + 1, n, workspaces, w =>
    let r := S.WorkspacesList w.svc org search n
    let w1 := w.record r.2 (Event.workspacesList org search n r.1)
    match r.1 with
    | Resp.error err => (some (workspaces, some err), w1)
    | Resp.ok page =>
      match scanItems S runStatus rfuel page.Items workspaces w1 with
      | (none, w2) => (none, w2)
      | (some (workspaces1, some err), w2) => (some (workspaces1, some err), w2)
      | (some (workspaces1, none), w2) =>
        if page.NextPage > n then
          ListWorkspacesLoop S org search runStatus rfuel fuel page.NextPage workspaces1 w2
        else (some (workspaces1, none), w2)

/-- The method `ListWorkspacesWithRunStatus`: the loop started with
`workspaces` empty and `n := 0`.  `fuel` bounds the workspace pages, `rfuel`
the run pages of each queue fetch. -/
def ListWorkspacesWithRunStatus {σ : Type} (S : Service σ) (org search : String)
    (runStatus : tfe.RunStatus) (fuel rfuel : Nat) (w : World σ) :
    Option (Workspaces × Option Error) × World σ :=
  ListWorkspacesLoop S org search runStatus rfuel fuel 0 [] w

/-- Go `strings.ToLower` on ASCII text (the action names are ASCII). -/
def ToLower (s : String) : String := ⟨s.data.map Char.toLower⟩

/-- The method `RunAction` (lines 185-209): one log line, then, unless `noop`,
the service call selected by `action`. -/
def RunAction {σ : Type} (S : Service σ) (action runID workspace_name : String)
    (noop : Bool) (w : World σ) : Option Error × World σ :=
  let w0 := w.log ("run_id=" ++ runID ++ ",workspace_name=" ++ workspace_name ++
                   ",action=" ++ ToLower action)
  if noop then (none, w0)
  else
    let comment := action ++ "ing run automatically"
    if action = APPLY then
      let r := S.RunsApply w0.svc runID comment
      (r.1, w0.record r.2 (Event.runsApply runID comment r.1))
    else if action = DISCARD then
      let r := S.RunsDiscard w0.svc runID comment
      (r.1, w0.record r.2 (Event.runsDiscard runID comment r.1))
    else if action = CANCEL then
      let r := S.RunsCancel w0.svc runID comment
      (r.1, w0.record r.2 (Event.runsCancel runID comment r.1))
    else (none, w0)

/-- Lines 56-58 of `main`: the line written once, before the scan, when
`noop` is set. -/
def mainNoopBanner {σ : Type} (noop : Bool) (w : World σ) : World σ :=
  if noop then w.log "noop=true,message=no action will be taken" else w

/-- The body of the inner loop of `main` (lines 73-92) for the run at position
`idx` of workspace `ws`; the value `RunAction` returns is dropped, as in the
source. -/
def mainRun {σ : Type} (S : Service σ) (noop : Bool) (ws : Workspace) (idx : Nat)
    (run : Run) (w : World σ) : World σ :=
  if idx = 0 then
    if run.Status = tfe.RunCostEstimated then
      if ws.AutoApply then (RunAction S APPLY run.ID ws.Name noop w).2 else w
    else if run.Status = tfe.RunPending then
      (RunAction S SKIP run.ID ws.Name noop w).2
    else w
  else
    if run.Status = tfe.RunCostEstimated then
      (RunAction S DISCARD run.ID ws.Name noop w).2
    else if run.Status = tfe.RunPending then
      (RunAction S CANCEL run.ID ws.Name noop w).2
    else w

/-- The inner loop of `main` (line 72): `for idx, run := range *ws.Runs`,
from position `idx` on. -/
def mainRuns {σ : Type} (S : Service σ) (noop : Bool) (ws : Workspace) :
    Nat → List Run → World σ → World σ
  | _, [], w => w
  | idx, run :: rest, w => mainRuns S noop ws (idx + 1) rest (mainRun S noop ws idx run w)

/-- The outer loop of `main` (lines 71-94): `for _, ws := range *workspaces`. -/
def mainWorkspaces {σ : Type} (S : Service σ) (noop : Bool) :
    List Workspace → World σ → World σ
  | [], w => w
  | ws :: rest, w => mainWorkspaces S noop rest (mainRuns S noop ws 0 ws.Runs w)

/-! ## Specification-side definitions for the disposal loop -/

/-- The dispositions of the decision table of the specification. -/
inductive Disposition where
  | Apply
  | Discard
  | Cancel
  | Skip
  | NoAction
deriving DecidableEq, Repr

/-- The decision table as the specification words it: a function of the
position, the status and the auto-apply flag. -/
def decisionTable (idx : Nat) (status : tfe.RunStatus) (autoApply : Bool) : Disposition :=
  if status = tfe.RunCostEstimated then
    if idx = 0 then (if autoApply then Disposition.Apply else Disposition.NoAction)
    else Disposition.Discard
  else if status = tfe.RunPending then
    if idx = 0 then Disposition.Skip else Disposition.Cancel
  else Disposition.NoAction

/-- The action constant handed to `RunAction` for a disposition; no action
means `RunAction` is not called. -/
def Disposition.action : Disposition → Option String
  | Disposition.Apply => some APPLY
  | Disposition.Discard => some DISCARD
  | Disposition.Cancel => some CANCEL
  | Disposition.Skip => some SKIP
  | Disposition.NoAction => none

/-- Carrying out a disposition for run `run` of workspace `ws`. -/
def dispatch {σ : Type} (S : Service σ) (noop : Bool) (ws : Workspace) (run : Run)
    (d : Disposition) (w : World σ) : World σ :=
  match d.action with
  | some a => (RunAction S a run.ID ws.Name noop w).2
  | none => w

/-- A service call without its response. -/
inductive Request where
  | workspacesList (org search : String) (page : Int)
  | runsList (workspaceID : String) (page : Int)
  | runsApply (runID comment : String)
  | runsDiscard (runID comment : String)
  | runsCancel (runID comment : String)
deriving DecidableEq, Repr

/-- The request of an event. -/
def Event.request : Event → Request
  | Event.workspacesList org search page _ => Request.workspacesList org search page
  | Event.runsList workspaceID page _ => Request.runsList workspaceID page
  | Event.runsApply runID comment _ => Request.runsApply runID comment
  | Event.runsDiscard runID comment _ => Request.runsDiscard runID comment
  | Event.runsCancel runID comment _ => Request.runsCancel runID comment

/-- The error a service call returned, if it returned one. -/
def Event.failure : Event → Option Error
  | Event.workspacesList _ _ _ (Resp.error err) => some err
  | Event.workspacesList _ _ _ (Resp.ok _) => none
  | Event.runsList _ _ (Resp.error err) => some err
  | Event.runsList _ _ (Resp.ok _) => none
  | Event.runsApply _ _ resp => resp
  | Event.runsDiscard _ _ resp => resp
  | Event.runsCancel _ _ resp => resp

/-- The service call a disposition stands for: apply, discard and cancel carry
the comment of the form "<Action>ing run automatically"; skip and no action
call nothing. -/
def Disposition.request (d : Disposition) (runID : String) : Option Request :=
  match d with
  | Disposition.Apply => some (Request.runsApply runID "Applying run automatically")
  | Disposition.Discard => some (Request.runsDiscard runID "Discarding run automatically")
  | Disposition.Cancel => some (Request.runsCancel runID "Canceling run automatically")
  | Disposition.Skip => none
  | Disposition.NoAction => none

/-- The action calls of a scan result in the order the specification asks for:
workspaces in scan order, runs in queue order. -/
def plannedRequests (wss : List Workspace) : List Request :=
  wss.flatMap fun ws =>
    ws.Runs.enum.filterMap fun ir =>
      (decisionTable ir.1 ir.2.Status ws.AutoApply).request ir.2.ID

/-- The lower-cased action name written to the log for a disposition; a run
left without action has no log line. -/
def Disposition.label : Disposition → Option String
  | Disposition.Apply => some "apply"
  | Disposition.Discard => some "discard"
  | Disposition.Cancel => some "cancel"
  | Disposition.Skip => some "skip"
  | Disposition.NoAction => none

/-- The log line of a decision. -/
def logLine (runID workspace_name label : String) : String :=
  "run_id=" ++ runID ++ ",workspace_name=" ++ workspace_name ++ ",action=" ++ label

/-- The log lines of a scan result: one line per run whose disposition has a
label, workspaces in scan order, runs in queue order. -/
def plannedLogs (wss : List Workspace) : List String :=
  wss.flatMap fun ws =>
    ws.Runs.enum.filterMap fun ir =>
      (decisionTable ir.1 ir.2.Status ws.AutoApply).label.map (logLine ir.2.ID ws.Name)

/-! ## Concrete services and scan results used in the scenarios -/

/-- A service that serves empty listings and whose actions all succeed. -/
def quietService : Service Unit where
  WorkspacesList := fun s _ _ _ => (Resp.ok { Items := [], NextPage := 0 }, s)
  RunsList := fun s _ _ => (Resp.ok { Items := [], NextPage := 0 }, s)
  RunsApply := fun s _ _ => (none, s)
  RunsDiscard := fun s _ _ => (none, s)
  RunsCancel := fun s _ _ => (none, s)

/-- A service whose actions all fail. -/
def failingService : Service Unit where
  WorkspacesList := fun s _ _ _ => (Resp.ok { Items := [], NextPage := 0 }, s)
  RunsList := fun s _ _ => (Resp.ok { Items := [], NextPage := 0 }, s)
  RunsApply := fun s _ _ => (some "apply failed", s)
  RunsDiscard := fun s _ _ => (some "discard failed", s)
  RunsCancel := fun s _ _ => (some "cancel failed", s)

/-- Workspace W1 of the end-to-end scenario. -/
def scenarioW1 : Workspace :=
  { ID := "ws-1", Name := "W1", AutoApply := true,
    Runs := [{ ID := "R1", Status := tfe.RunCostEstimated },
             { ID := "R2", Status := tfe.RunPending },
             { ID := "R3", Status := tfe.RunCostEstimated }] }

/-- Workspace W2 of the end-to-end scenario. -/
def scenarioW2 : Workspace :=
  { ID := "ws-2", Name := "W2", AutoApply := false,
    Runs := [{ ID := "R4", Status := tfe.RunCostEstimated }] }

/-! ## Specification-side definitions for the run queue fetcher -/

/-- The run pages served without error on a trace, in fetch order. -/
def runPages : List Event → List tfe.RunList
  | [] => []
  | Event.runsList _ _ (Resp.ok page) :: rest => page :: runPages rest
  | _ :: rest => runPages rest

/-- A run the specification keeps: status cost-estimated or pending. -/
def isWaiting (r : tfe.Run) : Bool :=
  decide (r.Status = tfe.RunCostEstimated ∨ r.Status = tfe.RunPending)

/-- The items of a listing restricted to the waiting ones, order kept, ID and
Status copied. -/
def waitingOf (items : List tfe.Run) : Runs :=
  (items.filter isWaiting).map fun r => { ID := r.ID, Status := r.Status }

/-- The early-termination rule as the specification words it: the last item
of the page, before filtering, is pending and the service reports a further
page. -/
def mayContinue (page : tfe.RunList) (n : Int) : Bool :=
  (match page.Items.getLast? with
   | some run => decide (run.Status = tfe.RunPending)
   | none => false) &&
  decide (page.NextPage > n)

/-- The traces of run-list calls the early-termination rule allows for a fetch
that starts at page `n`.  The third argument is how the fetch ended:
`some none` returned without error, `some (some err)` returned `err`, `none`
ran out of fuel.  After a page that may continue the next event is the fetch of
its `NextPage`; after any other page, and after an error, there is no further
event. -/
def fetchChain (workspaceID : String) : Int → List Event → Option (Option Error) → Bool
  | _, [], o => o == none
  | n, Event.runsList id p (Resp.error err) :: rest, o =>
    id == workspaceID && p == n && rest.isEmpty && o == some (some err)
  | n, Event.runsList id p (Resp.ok page) :: rest, o =>
    id == workspaceID && p == n &&
      (if mayContinue page n then fetchChain workspaceID page.NextPage rest o
       else rest.isEmpty && o == some none)
  | _, _ :: _, _ => false

/-- A run-list endpoint with the two synthetic pages of the specification:
`[estimated, pending]` with a next page, then `[applied]`. -/
def twoPageRuns : Service Unit where
  WorkspacesList := fun s _ _ _ => (Resp.ok { Items := [], NextPage := 0 }, s)
  RunsList := fun s _ p =>
    if p ≤ 1 then
      (Resp.ok { Items := [{ ID := "R1", Status := tfe.RunCostEstimated },
                           { ID := "R2", Status := tfe.RunPending }],
                 NextPage := 2 }, s)
    else (Resp.ok { Items := [{ ID := "R3", Status := "applied" }], NextPage := 0 }, s)
  RunsApply := fun s _ _ => (none, s)
  RunsDiscard := fun s _ _ => (none, s)
  RunsCancel := fun s _ _ => (none, s)

/-- Every call before the last succeeded, and the last one returned the error
the function returned; when the function returned no error (or ran out of
fuel) every call succeeded. -/
def FailStop (evs : List Event) (o : Option (Option Error)) : Prop :=
  match o with
  | some (some err) =>
    ∃ pre last, evs = pre ++ [last] ∧ (∀ ev ∈ pre, ev.failure = none) ∧
      last.failure = some err
  | _ => ∀ ev ∈ evs, ev.failure = none

/-- The event records an answer the service can give to that request. -/
def Event.genuine {σ : Type} (S : Service σ) : Event → Prop
  | Event.workspacesList org search p r => ∃ s, (S.WorkspacesList s org search p).1 = r
  | Event.runsList id p r => ∃ s, (S.RunsList s id p).1 = r
  | Event.runsApply id c r => ∃ s, (S.RunsApply s id c).1 = r
  | Event.runsDiscard id c r => ∃ s, (S.RunsDiscard s id c).1 = r
  | Event.runsCancel id c r => ∃ s, (S.RunsCancel s id c).1 = r

/-- What one run of the fetch loop from state `(n, runs, w)` with result `res`
does, in terms of the events `evs` it adds to the trace. -/
structure FetchSpec {σ : Type} (S : Service σ) (id : String) (n : Int) (runs : Runs)
    (w : World σ) (res : Option (Runs × Option Error) × World σ) (evs : List Event) :
    Prop where
  calls : res.2.calls = w.calls ++ evs
  logs : res.2.logs = w.logs
  chain : fetchChain id n evs (res.1.map Prod.snd) = true
  out : ∀ out oerr, res.1 = some (out, oerr) →
    out = runs ++ waitingOf ((runPages evs).flatMap fun p => p.Items)
  stop : FailStop evs (res.1.map Prod.snd)
  only : ∀ ev ∈ evs, ∃ p r, ev = Event.runsList id p r
  genuine : ∀ ev ∈ evs, ev.genuine S

/-! ## Specification-side definitions for the workspace scanner -/

/-- The workspace pages served without error on a trace, in fetch order. -/
def wsPages : List Event → List tfe.WorkspaceList
  | [] => []
  | Event.workspacesList _ _ _ (Resp.ok page) :: rest => page :: wsPages rest
  | _ :: rest => wsPages rest

/-- The workspace records of the pages served on a trace, in the order the
service returned them. -/
def recordsOf (evs : List Event) : List tfe.Workspace :=
  (wsPages evs).flatMap fun p => p.Items

/-- The record has a current run and its status is the target status. -/
def hasStatus (target : tfe.RunStatus) (rec : tfe.Workspace) : Bool :=
  match rec.CurrentRun with
  | some cur => decide (cur.Status = target)
  | none => false

/-- The event is a workspace-list or run-list call. -/
def Event.isList : Event → Bool
  | Event.workspacesList _ _ _ _ => true
  | Event.runsList _ _ _ => true
  | _ => false

/-- Workspace `ws` of the result was assembled from record `rec`: ID, Name
and AutoApply are the record's and `Runs` is a queue `ListWaitingRuns`
returned without error for the record's ID. -/
def Assembled {σ : Type} (S : Service σ) (rfuel : Nat) (rec : tfe.Workspace)
    (ws : Workspace) : Prop :=
  ws.ID = rec.ID ∧ ws.Name = rec.Name ∧ ws.AutoApply = rec.AutoApply ∧
    ∃ w1 : World σ, (ListWaitingRuns S rec.ID rfuel w1).1 = some (ws.Runs, none)

/-- The queue fetch for record `rec` returned the error `err`. -/
def FetchFailed {σ : Type} (S : Service σ) (rfuel : Nat) (rec : tfe.Workspace)
    (err : Error) : Prop :=
  ∃ (w1 : World σ) (q : Runs), (ListWaitingRuns S rec.ID rfuel w1).1 = some (q, some err)

/-- What the scan of the items of one page, from state `(acc, w)` with result
`res`, does in terms of the events `evs` it adds to the trace. -/
structure ItemsSpec {σ : Type} (S : Service σ) (target : tfe.RunStatus) (rfuel : Nat)
    (items : List tfe.Workspace) (acc : Workspaces) (w : World σ)
    (res : Option (Workspaces × Option Error) × World σ) (evs : List Event) : Prop where
  calls : res.2.calls = w.calls ++ evs
  logs : res.2.logs = w.logs
  noPages : wsPages evs = []
  stop : FailStop evs (res.1.map Prod.snd)
  lists : ∀ ev ∈ evs, ev.isList = true
  runsOnly : ∀ ev ∈ evs, ∃ id p r, ev = Event.runsList id p r
  genuine : ∀ ev ∈ evs, ev.genuine S
  done : ∀ out, res.1 = some (out, none) →
    ∃ new, out = acc ++ new ∧
      List.Forall₂ (Assembled S rfuel) (items.filter (hasStatus target)) new
  failed : ∀ out err, res.1 = some (out, some err) →
    ∃ new fetched rec rest, out = acc ++ new ∧
      items.filter (hasStatus target) = fetched ++ rec :: rest ∧
      List.Forall₂ (Assembled S rfuel) fetched new ∧ FetchFailed S rfuel rec err ∧
      ∃ pre p, evs = pre ++ [Event.runsList rec.ID p (Resp.error err)]

/-- What one run of the scan loop from state `(n, acc, w)` with result `res`
does, in terms of the events `evs` it adds to the trace. -/
structure ScanSpec {σ : Type} (S : Service σ) (org search : String)
    (target : tfe.RunStatus) (rfuel : Nat) (acc : Workspaces) (w : World σ)
    (res : Option (Workspaces × Option Error) × World σ) (evs : List Event) : Prop where
  calls : res.2.calls = w.calls ++ evs
  logs : res.2.logs = w.logs
  stop : FailStop evs (res.1.map Prod.snd)
  lists : ∀ ev ∈ evs, ev.isList = true
  genuine : ∀ ev ∈ evs, ev.genuine S
  done : ∀ out, res.1 = some (out, none) →
    ∃ new, out = acc ++ new ∧
      List.Forall₂ (Assembled S rfuel) ((recordsOf evs).filter (hasStatus target)) new
  failed : ∀ out err, res.1 = some (out, some err) →
    ∃ new fetched rest, out = acc ++ new ∧
      (recordsOf evs).filter (hasStatus target) = fetched ++ rest ∧
      List.Forall₂ (Assembled S rfuel) fetched new ∧
      ((rest = [] ∧ ∃ pre p, evs = pre ++ [Event.workspacesList org search p (Resp.error err)]) ∨
       (∃ rec rest2, rest = rec :: rest2 ∧ FetchFailed S rfuel rec err ∧
          ∃ pre p, evs = pre ++ [Event.runsList rec.ID p (Resp.error err)]))

/-- The organization of the end-to-end scenario: page 1 lists W1 (current run
R1, cost-estimated) and W3 (no current run) and announces page 2, page 2 lists
W4 (current run R9, applied) and W2 (current run R4, cost-estimated).  The run
listings are `[R1, R2, R3]` for W1, `[R4]` for W2 and `[R9]` otherwise. -/
def acmeService : Service Unit where
  WorkspacesList := fun s _ _ p =>
    if p ≤ 1 then
      (Resp.ok { Items := [{ ID := "ws-1", Name := "W1", AutoApply := true,
                             CurrentRun := some { ID := "R1", Status := tfe.RunCostEstimated } },
                           { ID := "ws-3", Name := "W3", AutoApply := false,
                             CurrentRun := none }],
                 NextPage := 2 }, s)
    else
      (Resp.ok { Items := [{ ID := "ws-4", Name := "W4", AutoApply := true,
                             CurrentRun := some { ID := "R9", Status := "applied" } },
                           { ID := "ws-2", Name := "W2", AutoApply := false,
                             CurrentRun := some { ID := "R4", Status := tfe.RunCostEstimated } }],
                 NextPage := 0 }, s)
  RunsList := fun s id _ =>
    if id = "ws-1" then
      (Resp.ok { Items := [{ ID := "R1", Status := tfe.RunCostEstimated },
                           { ID := "R2", Status := tfe.RunPending },
                           { ID := "R3", Status := tfe.RunCostEstimated }],
                 NextPage := 0 }, s)
    else if id = "ws-2" then
      (Resp.ok { Items := [{ ID := "R4", Status := tfe.RunCostEstimated }], NextPage := 0 }, s)
    else (Resp.ok { Items := [{ ID := "R9", Status := "applied" }], NextPage := 0 }, s)
  RunsApply := fun s _ _ => (none, s)
  RunsDiscard := fun s _ _ => (none, s)
  RunsCancel := fun s _ _ => (none, s)

/-- The organization of the scenario with a run-list endpoint that fails for
workspace W2. -/
def brokenService : Service Unit where
  WorkspacesList := acmeService.WorkspacesList
  RunsList := fun s id p =>
    if id = "ws-2" then (Resp.error "boom", s) else acmeService.RunsList s id p
  RunsApply := fun s _ _ => (none, s)
  RunsDiscard := fun s _ _ => (none, s)
  RunsCancel := fun s _ _ => (none, s)

/-- One workspace W1 whose current run is R1; the run-list endpoint lists the
runs newest first, so the run R2 queued after R1 comes before it. -/
def newestFirstService : Service Unit where
  WorkspacesList := fun s _ _ _ =>
    (Resp.ok { Items := [{ ID := "ws-1", Name := "W1", AutoApply := true,
                           CurrentRun := some { ID := "R1", Status := tfe.RunCostEstimated } }],
               NextPage := 0 }, s)
  RunsList := fun s _ _ =>
    (Resp.ok { Items := [{ ID := "R2", Status := tfe.RunPending },
                         { ID := "R1", Status := tfe.RunCostEstimated }],
               NextPage := 0 }, s)
  RunsApply := fun s _ _ => (none, s)
  RunsDiscard := fun s _ _ => (none, s)
  RunsCancel := fun s _ _ => (none, s)

/-- A workspace listing of finitely many pages as the service serves it:
a request for page 0 (go-tfe then sends no page number) or page 1 gets the
first page, a request for page `q` gets page `q`; every page but the last
announces the next page number, the last one (and any page past the end)
announces 0. -/
def servePage (pages : List (List tfe.Workspace)) (p : Int) : tfe.WorkspaceList :=
  let q : Nat := if p ≤ 1 then 1 else p.toNat
  { Items := pages.getD (q - 1) [],
    NextPage := if q < pages.length then ((q + 1 : Nat) : Int) else 0 }

/-- The page numbers of the workspace-list calls on a trace, in call order. -/
def wsRequests : List Event → List Int
  | [] => []
  | Event.workspacesList _ _ p _ :: rest => p :: wsRequests rest
  | _ :: rest => wsRequests rest

/-- The page numbers a full pass over a listing of `N` pages requests: 0 for
the first page, then 2, 3, ..., `N`. -/
def pageNumbers (N : Nat) : List Int :=
  0 :: (List.range' 2 (N - 1)).map Int.ofNat

/-- The two pages of the scenario organization. -/
def acmePages : List (List tfe.Workspace) :=
  [[{ ID := "ws-1", Name := "W1", AutoApply := true,
      CurrentRun := some { ID := "R1", Status := tfe.RunCostEstimated } },
    { ID := "ws-3", Name := "W3", AutoApply := false, CurrentRun := none }],
   [{ ID := "ws-4", Name := "W4", AutoApply := true,
      CurrentRun := some { ID := "R9", Status := "applied" } },
    { ID := "ws-2", Name := "W2", AutoApply := false,
      CurrentRun := some { ID := "R4", Status := tfe.RunCostEstimated } }]]

/-- The scenario organization with its workspace listing served by
`servePage`. -/
def listingService : Service Unit where
  WorkspacesList := fun s _ _ p => (Resp.ok (servePage acmePages p), s)
  RunsList := acmeService.RunsList
  RunsApply := fun s _ _ => (none, s)
  RunsDiscard := fun s _ _ => (none, s)
  RunsCancel := fun s _ _ => (none, s)

/-- The two-page listing of the scenario organization with a run-list
endpoint that always fails. -/
def failingRunsService : Service Unit where
  WorkspacesList := fun s _ _ p => (Resp.ok (servePage acmePages p), s)
  RunsList := fun s _ _ => (Resp.error "boom", s)
  RunsApply := fun s _ _ => (none, s)
  RunsDiscard := fun s _ _ => (none, s)
  RunsCancel := fun s _ _ => (none, s)

/-- The two-page listing of the scenario organization with a run-list
endpoint that never ends: every page holds one pending run and announces the
page after it. -/
def endlessRunsService : Service Unit where
  WorkspacesList := fun s _ _ p => (Resp.ok (servePage acmePages p), s)
  RunsList := fun s _ p =>
    (Resp.ok { Items := [{ ID := "R0", Status := tfe.RunPending }], NextPage := p + 1 }, s)
  RunsApply := fun s _ _ => (none, s)
  RunsDiscard := fun s _ _ => (none, s)
  RunsCancel := fun s _ _ => (none, s)

/-- The workspace-list calls on a trace: page number and response. -/
def wsCalls : List Event → List (Int × Resp tfe.WorkspaceList)
  | [] => []
  | Event.workspacesList _ _ p r :: rest => (p, r) :: wsCalls rest
  | _ :: rest => wsCalls rest

/-- The chains of workspace-list calls the pagination rule allows for a scan
that starts at page `n`.  The third argument is how the scan ended: `some
none` returned without error, `some (some err)` returned `err`, `none` ran
out of fuel.  A further call follows a page only when its next-page indicator
exceeds the page number, and it requests exactly that indicator; a scan that
returns without error ends on a page whose indicator is at most the page
number; a failed workspace-list call is the last one. -/
def pageChain : Int → List (Int × Resp tfe.WorkspaceList) → Option (Option Error) → Bool
  | _, [], o => o == none
  | n, (p, Resp.error err) :: rest, o => p == n && rest.isEmpty && o == some (some err)
  | n, [(p, Resp.ok page)], o =>
    p == n && (o != some none || !decide (page.NextPage > n))
  | n, (p, Resp.ok page) :: c :: rest, o =>
    p == n && decide (page.NextPage > n) && pageChain page.NextPage (c :: rest) o

/-! ## The disposal loop -/

theorem action_consts :
    DISCARD ≠ APPLY ∧ CANCEL ≠ APPLY ∧ CANCEL ≠ DISCARD ∧
    SKIP ≠ APPLY ∧ SKIP ≠ DISCARD ∧ SKIP ≠ CANCEL := by decide

theorem status_consts : tfe.RunPending ≠ tfe.RunCostEstimated := by decide

/-- The loop body of `main` carries out the disposition of the decision table. -/
theorem mainRun_eq_dispatch {σ : Type} (S : Service σ) (noop : Bool) (ws : Workspace)
    (idx : Nat) (run : Run) (w : World σ) :
    mainRun S noop ws idx run w =
      dispatch S noop ws run (decisionTable idx run.Status ws.AutoApply) w := by
  unfold mainRun decisionTable dispatch
  by_cases h0 : idx = 0 <;> by_cases hc : run.Status = tfe.RunCostEstimated <;>
    by_cases hp : run.Status = tfe.RunPending <;> by_cases ha : ws.AutoApply = true <;>
    simp [h0, hc, hp, ha, Disposition.action, status_consts]

/-- Claim C1.  The action `main` takes for the run at position `idx` of a
workspace is the one the decision table gives for `(idx, status, AutoApply)`:
position 0 cost-estimated is Apply with auto-apply and nothing without,
position 0 pending is Skip, a later position is Discard when cost-estimated
and Cancel when pending, any other status is no action.  In the end-to-end
scenario the service receives Apply(R1), Cancel(R2), Discard(R3) and nothing
for W2. -/
theorem C1_decision_table :
    (∀ (σ : Type) (S : Service σ) (noop : Bool) (ws : Workspace) (idx : Nat) (run : Run)
        (w : World σ),
        mainRun S noop ws idx run w =
          dispatch S noop ws run (decisionTable idx run.Status ws.AutoApply) w) ∧
    (∀ idx : Nat,
        decisionTable 0 tfe.RunCostEstimated true = Disposition.Apply ∧
        decisionTable 0 tfe.RunCostEstimated false = Disposition.NoAction ∧
        (∀ a, decisionTable 0 tfe.RunPending a = Disposition.Skip) ∧
        (∀ a, decisionTable (idx + 1) tfe.RunCostEstimated a = Disposition.Discard) ∧
        (∀ a, decisionTable (idx + 1) tfe.RunPending a = Disposition.Cancel)) ∧
    (∀ (idx : Nat) (status : tfe.RunStatus) (a : Bool),
        status ≠ tfe.RunCostEstimated → status ≠ tfe.RunPending →
        decisionTable idx status a = Disposition.NoAction) ∧
    (mainWorkspaces quietService false [scenarioW1, scenarioW2] (World.start ())).calls =
      [Event.runsApply "R1" "Applying run automatically" none,
       Event.runsCancel "R2" "Canceling run automatically" none,
       Event.runsDiscard "R3" "Discarding run automatically" none] ∧
    (mainWorkspaces quietService false [scenarioW2] (World.start ())).calls = [] := by
  refine ⟨fun σ S noop ws idx run w => mainRun_eq_dispatch S noop ws idx run w, ?_, ?_, ?_, ?_⟩
  · intro idx
    refine ⟨by decide, by decide, ?_, ?_, ?_⟩
    · intro a; simp [decisionTable, status_consts]
    · intro a; simp [decisionTable]
    · intro a; simp [decisionTable, status_consts]
  · intro idx status a h1 h2
    simp [decisionTable, h1, h2]
  · decide
  · decide

/-- Claim C1, witness: a run with status applied is left without action at any
position. -/
theorem C1_decision_table_witness :
    ("applied" : tfe.RunStatus) ≠ tfe.RunCostEstimated ∧
    ("applied" : tfe.RunStatus) ≠ tfe.RunPending ∧
    decisionTable 0 "applied" true = Disposition.NoAction ∧
    decisionTable 3 "applied" false = Disposition.NoAction :=
  ⟨by decide, by decide,
   C1_decision_table.2.2.1 0 "applied" true (by decide) (by decide),
   C1_decision_table.2.2.1 3 "applied" false (by decide) (by decide)⟩

theorem RunAction_logs {σ : Type} (S : Service σ) (a runID name : String) (noop : Bool)
    (w : World σ) :
    (RunAction S a runID name noop w).2.logs = w.logs ++ [logLine runID name (ToLower a)] := by
  unfold RunAction
  simp only []
  split_ifs <;> simp [World.log, World.record, logLine]

theorem RunAction_noop {σ : Type} (S : Service σ) (a runID name : String) (w : World σ) :
    (RunAction S a runID name true w).2.calls = w.calls ∧
    (RunAction S a runID name true w).2.svc = w.svc := by
  simp [RunAction, World.log]

theorem dispatch_logs {σ : Type} (S : Service σ) (noop : Bool) (ws : Workspace) (run : Run)
    (d : Disposition) (w : World σ) :
    (dispatch S noop ws run d w).logs =
      w.logs ++ (d.label.map (logLine run.ID ws.Name)).toList := by
  have hl : ToLower APPLY = "apply" ∧ ToLower DISCARD = "discard" ∧
      ToLower CANCEL = "cancel" ∧ ToLower SKIP = "skip" := by decide
  cases d <;> simp [dispatch, Disposition.action, Disposition.label, RunAction_logs, hl]

theorem dispatch_noop {σ : Type} (S : Service σ) (ws : Workspace) (run : Run)
    (d : Disposition) (w : World σ) :
    (dispatch S true ws run d w).calls = w.calls ∧ (dispatch S true ws run d w).svc = w.svc := by
  cases d <;> simp [dispatch, Disposition.action, RunAction_noop]

theorem dispatch_requests {σ : Type} (S : Service σ) (ws : Workspace) (run : Run)
    (d : Disposition) (w : World σ) :
    (dispatch S false ws run d w).calls.map Event.request =
      w.calls.map Event.request ++ (d.request run.ID).toList := by
  have hc := action_consts
  have ha : APPLY ++ "ing run automatically" = "Applying run automatically" ∧
      DISCARD ++ "ing run automatically" = "Discarding run automatically" ∧
      CANCEL ++ "ing run automatically" = "Canceling run automatically" := by decide
  cases d <;>
    simp [dispatch, Disposition.action, Disposition.request, RunAction, World.log,
      World.record, Event.request, hc, ha]

theorem mainRuns_logs {σ : Type} (S : Service σ) (noop : Bool) (ws : Workspace)
    (runs : List Run) (idx : Nat) (w : World σ) :
    (mainRuns S noop ws idx runs w).logs =
      w.logs ++ (runs.enumFrom idx).filterMap fun ir =>
        (decisionTable ir.1 ir.2.Status ws.AutoApply).label.map (logLine ir.2.ID ws.Name) := by
  induction runs generalizing idx w with
  | nil => simp [mainRuns]
  | cons run rest ih =>
    rw [mainRuns, ih, mainRun_eq_dispatch, dispatch_logs, List.enumFrom_cons,
      List.filterMap_cons]
    cases (decisionTable idx run.Status ws.AutoApply).label <;> simp

theorem mainRuns_noop {σ : Type} (S : Service σ) (ws : Workspace)
    (runs : List Run) (idx : Nat) (w : World σ) :
    (mainRuns S true ws idx runs w).calls = w.calls ∧
    (mainRuns S true ws idx runs w).svc = w.svc := by
  induction runs generalizing idx w with
  | nil => simp [mainRuns]
  | cons run rest ih =>
    rw [mainRuns, (ih _ _).1, (ih _ _).2, mainRun_eq_dispatch]
    exact dispatch_noop S ws run _ w

theorem mainRuns_requests {σ : Type} (S : Service σ) (ws : Workspace)
    (runs : List Run) (idx : Nat) (w : World σ) :
    (mainRuns S false ws idx runs w).calls.map Event.request =
      w.calls.map Event.request ++ (runs.enumFrom idx).filterMap fun ir =>
        (decisionTable ir.1 ir.2.Status ws.AutoApply).request ir.2.ID := by
  induction runs generalizing idx w with
  | nil => simp [mainRuns]
  | cons run rest ih =>
    rw [mainRuns, ih, mainRun_eq_dispatch, dispatch_requests, List.enumFrom_cons,
      List.filterMap_cons]
    cases (decisionTable idx run.Status ws.AutoApply).request run.ID <;> simp

theorem mainWorkspaces_logs {σ : Type} (S : Service σ) (noop : Bool)
    (wss : List Workspace) (w : World σ) :
    (mainWorkspaces S noop wss w).logs = w.logs ++ plannedLogs wss := by
  induction wss generalizing w with
  | nil => simp [mainWorkspaces, plannedLogs]
  | cons ws rest ih =>
    rw [mainWorkspaces, ih, mainRuns_logs]
    simp [plannedLogs, List.enum]

theorem mainWorkspaces_noop {σ : Type} (S : Service σ)
    (wss : List Workspace) (w : World σ) :
    (mainWorkspaces S true wss w).calls = w.calls ∧
    (mainWorkspaces S true wss w).svc = w.svc := by
  induction wss generalizing w with
  | nil => simp [mainWorkspaces]
  | cons ws rest ih =>
    rw [mainWorkspaces, (ih _).1, (ih _).2]
    exact mainRuns_noop S ws ws.Runs 0 w

theorem mainWorkspaces_requests {σ : Type} (S : Service σ)
    (wss : List Workspace) (w : World σ) :
    (mainWorkspaces S false wss w).calls.map Event.request =
      w.calls.map Event.request ++ plannedRequests wss := by
  induction wss generalizing w with
  | nil => simp [mainWorkspaces, plannedRequests]
  | cons ws rest ih =>
    rw [mainWorkspaces, ih, mainRuns_requests]
    simp [plannedRequests, List.enum]

/-- Claim C6.  On every scan result the disposal loop run with `noop = true`
writes the same log lines as with `noop = false` (whatever the service
answers), makes no service call at all, and so no apply, discard or cancel
call, and leaves the service state untouched.  The one line that tells the
two modes apart is the banner `main` writes before the scan. -/
theorem C6_noop_equivalence {σ τ : Type} (S : Service σ) (T : Service τ)
    (wss : List Workspace) (s : σ) (t : τ) (calls : List Event) (logs : List String) :
    (mainWorkspaces S true wss { svc := s, calls := calls, logs := logs }).logs =
      (mainWorkspaces T false wss { svc := t, calls := calls, logs := logs }).logs ∧
    (mainWorkspaces S true wss { svc := s, calls := calls, logs := logs }).calls = calls ∧
    (mainWorkspaces S true wss { svc := s, calls := calls, logs := logs }).svc = s ∧
    (mainNoopBanner true { svc := s, calls := calls, logs := logs }).logs =
      logs ++ ["noop=true,message=no action will be taken"] ∧
    (mainNoopBanner false { svc := s, calls := calls, logs := logs }).logs = logs := by
  refine ⟨?_, ?_, ?_, rfl, rfl⟩
  · rw [mainWorkspaces_logs, mainWorkspaces_logs]
  · exact (mainWorkspaces_noop S wss _).1
  · exact (mainWorkspaces_noop S wss _).2

/-- Claim C9.  With `noop = false` the apply, discard and cancel calls the
disposal loop issues (run ID, action, comment, order) are the planned ones:
workspaces in scan order, runs in queue order starting with position 0, each
run by the decision table.  The plan does not mention the service, so the
calls are the same whatever each call returns; against a service whose
actions all fail the scenario workspace W1 still gets its three calls. -/
theorem C9_best_effort_dispatch :
    (∀ (σ : Type) (S : Service σ) (wss : List Workspace) (w : World σ),
        (mainWorkspaces S false wss w).calls.map Event.request =
          w.calls.map Event.request ++ plannedRequests wss) ∧
    (mainWorkspaces failingService false [scenarioW1, scenarioW2] (World.start ())).calls =
      [Event.runsApply "R1" "Applying run automatically" (some "apply failed"),
       Event.runsCancel "R2" "Canceling run automatically" (some "cancel failed"),
       Event.runsDiscard "R3" "Discarding run automatically" (some "discard failed")] := by
  refine ⟨fun σ S wss w => mainWorkspaces_requests S wss w, ?_⟩
  decide

/-- Claim C10.  The log of the disposal loop is the planned one for both
values of `noop`: one line `run_id=..,workspace_name=..,action=..` with the
lower-cased action for every run whose disposition is apply, discard, cancel
or skip, in scan and queue order, and no line for a run left without action. -/
theorem C10_decisions_logged :
    (∀ (σ : Type) (S : Service σ) (noop : Bool) (wss : List Workspace) (w : World σ),
        (mainWorkspaces S noop wss w).logs = w.logs ++ plannedLogs wss) ∧
    (∀ noop : Bool,
      (mainWorkspaces quietService noop [scenarioW1, scenarioW2] (World.start ())).logs =
        ["run_id=R1,workspace_name=W1,action=apply",
         "run_id=R2,workspace_name=W1,action=cancel",
         "run_id=R3,workspace_name=W1,action=discard"]) := by
  refine ⟨fun σ S noop wss w => mainWorkspaces_logs S noop wss w, ?_⟩
  intro noop
  rw [mainWorkspaces_logs]
  decide

/-- Claim C10, counterexample.  Workspace W2 (auto-apply off) has one run, R4,
cost-estimated at position 0; the disposal loop writes no log line for it,
with `noop` off and with `noop` on. -/
theorem C10_counterexample :
    scenarioW2.Runs.length = 1 ∧
    (mainWorkspaces quietService false [scenarioW2] (World.start ())).logs = [] ∧
    (mainWorkspaces quietService true [scenarioW2] (World.start ())).logs = [] := by
  decide

/-! ## The run queue fetcher -/

theorem appendWaiting_eq (items : List tfe.Run) (runs : Runs) :
    appendWaiting runs items = runs ++ waitingOf items := by
  induction items generalizing runs with
  | nil => simp [appendWaiting, waitingOf]
  | cons r rest ih =>
    have step : appendWaiting runs (r :: rest) =
        appendWaiting (if r.Status = tfe.RunCostEstimated ∨ r.Status = tfe.RunPending then
          runs ++ [{ ID := r.ID, Status := r.Status }] else runs) rest := rfl
    rw [step, ih]
    by_cases h : r.Status = tfe.RunCostEstimated ∨ r.Status = tfe.RunPending
    · simp [h, waitingOf, isWaiting, List.filter_cons]
    · simp [h, waitingOf, isWaiting, List.filter_cons]

theorem continuePaging_eq (page : tfe.RunList) (n : Int) :
    continuePaging page n = mayContinue page n := by
  unfold continuePaging mayContinue
  rw [List.get?_eq_getElem?, ← List.getLast?_eq_getElem?]
  cases h : page.Items with
  | nil => simp
  | cons a l => simp

theorem runPages_append (xs ys : List Event) :
    runPages (xs ++ ys) = runPages xs ++ runPages ys := by
  induction xs with
  | nil => rfl
  | cons ev rest ih =>
    cases ev with
    | runsList id p r => cases r <;> simp [runPages, ih]
    | workspacesList _ _ _ _ => simp [runPages, ih]
    | runsApply _ _ _ => simp [runPages, ih]
    | runsDiscard _ _ _ => simp [runPages, ih]
    | runsCancel _ _ _ => simp [runPages, ih]

theorem ListWaitingRunsLoop_error {σ : Type} (S : Service σ) (id : String) (fuel : Nat)
    (n : Int) (runs : Runs) (w : World σ) (err : Error)
    (h : (S.RunsList w.svc id n).1 = Resp.error err) :
    ListWaitingRunsLoop S id (fuel + 1) n runs w =
      (some (runs, some err),
        w.record (S.RunsList w.svc id n).2 (Event.runsList id n (Resp.error err))) := by
  simp [ListWaitingRunsLoop, h]

theorem ListWaitingRunsLoop_continue {σ : Type} (S : Service σ) (id : String) (fuel : Nat)
    (n : Int) (runs : Runs) (w : World σ) (page : tfe.RunList)
    (h : (S.RunsList w.svc id n).1 = Resp.ok page) (hc : mayContinue page n = true) :
    ListWaitingRunsLoop S id (fuel + 1) n runs w =
      ListWaitingRunsLoop S id fuel page.NextPage (runs ++ waitingOf page.Items)
        (w.record (S.RunsList w.svc id n).2 (Event.runsList id n (Resp.ok page))) := by
  simp [ListWaitingRunsLoop, h, continuePaging_eq, hc, appendWaiting_eq]

theorem ListWaitingRunsLoop_stop {σ : Type} (S : Service σ) (id : String) (fuel : Nat)
    (n : Int) (runs : Runs) (w : World σ) (page : tfe.RunList)
    (h : (S.RunsList w.svc id n).1 = Resp.ok page) (hc : mayContinue page n = false) :
    ListWaitingRunsLoop S id (fuel + 1) n runs w =
      (some (runs ++ waitingOf page.Items, none),
        w.record (S.RunsList w.svc id n).2 (Event.runsList id n (Resp.ok page))) := by
  simp [ListWaitingRunsLoop, h, continuePaging_eq, hc, appendWaiting_eq]

theorem ListWaitingRunsLoop_spec {σ : Type} (S : Service σ) (id : String) (fuel : Nat)
    (n : Int) (runs : Runs) (w : World σ) :
    ∃ evs, FetchSpec S id n runs w (ListWaitingRunsLoop S id fuel n runs w) evs := by
  induction fuel generalizing n runs w with
  | zero =>
    refine ⟨[], ?_⟩
    constructor <;> simp [ListWaitingRunsLoop, fetchChain, FailStop]
  | succ fuel ih =>
    cases h : (S.RunsList w.svc id n).1 with
    | error err =>
      rw [ListWaitingRunsLoop_error S id fuel n runs w err h]
      refine ⟨[Event.runsList id n (Resp.error err)], ?_⟩
      constructor
      · simp [World.record]
      · simp [World.record]
      · simp [fetchChain]
      · intro out oerr ho
        simp at ho
        simp [runPages, waitingOf, ho.1]
      · exact ⟨[], _, rfl, by simp, rfl⟩
      · intro ev hev
        simp at hev
        exact ⟨n, _, hev⟩
      · intro ev hev
        simp at hev
        subst hev
        exact ⟨w.svc, h⟩
    | ok page =>
      cases hc : mayContinue page n with
      | true =>
        rw [ListWaitingRunsLoop_continue S id fuel n runs w page h hc]
        obtain ⟨evs, hs⟩ := ih page.NextPage (runs ++ waitingOf page.Items)
          (w.record (S.RunsList w.svc id n).2 (Event.runsList id n (Resp.ok page)))
        refine ⟨Event.runsList id n (Resp.ok page) :: evs, ?_⟩
        constructor
        · rw [hs.calls]; simp [World.record]
        · rw [hs.logs]; simp [World.record]
        · simp [fetchChain, hc, hs.chain]
        · intro out oerr ho
          rw [hs.out out oerr ho]
          simp [runPages, waitingOf]
        · have hst := hs.stop
          revert hst
          cases hr : Option.map Prod.snd (ListWaitingRunsLoop S id fuel page.NextPage
            (runs ++ waitingOf page.Items)
            (w.record (S.RunsList w.svc id n).2 (Event.runsList id n (Resp.ok page)))).1 with
          | none =>
            intro hst ev hev
            rcases List.mem_cons.1 hev with rfl | hev
            · rfl
            · exact hst ev hev
          | some o =>
            cases o with
            | none =>
              intro hst ev hev
              rcases List.mem_cons.1 hev with rfl | hev
              · rfl
              · exact hst ev hev
            | some err =>
              rintro ⟨pre, last, hpre, hok, hlast⟩
              refine ⟨Event.runsList id n (Resp.ok page) :: pre, last, by simp [hpre], ?_, hlast⟩
              intro ev hev
              rcases List.mem_cons.1 hev with rfl | hev
              · rfl
              · exact hok ev hev
        · intro ev hev
          rcases List.mem_cons.1 hev with rfl | hev
          · exact ⟨n, _, rfl⟩
          · exact hs.only ev hev
        · intro ev hev
          rcases List.mem_cons.1 hev with rfl | hev
          · exact ⟨w.svc, h⟩
          · exact hs.genuine ev hev
      | false =>
        rw [ListWaitingRunsLoop_stop S id fuel n runs w page h hc]
        refine ⟨[Event.runsList id n (Resp.ok page)], ?_⟩
        constructor
        · simp [World.record]
        · simp [World.record]
        · simp [fetchChain, hc]
        · intro out oerr ho
          simp at ho
          simp [runPages, ho.1]
        · intro ev hev
          simp at hev
          subst hev
          rfl
        · intro ev hev
          simp at hev
          exact ⟨n, _, hev⟩
        · intro ev hev
          simp at hev
          subst hev
          exact ⟨w.svc, h⟩

theorem mayContinue_next (page : tfe.RunList) (n : Int) (h : mayContinue page n = true) :
    page.NextPage > n := by
  unfold mayContinue at h
  simp only [Bool.and_eq_true, decide_eq_true_eq] at h
  exact h.2

theorem ListWaitingRunsLoop_returns {σ : Type} (S : Service σ) (B : Nat)
    (hR : ∀ s id p page, (S.RunsList s id p).1 = Resp.ok page → page.NextPage ≤ B)
    (id : String) (fuel : Nat) (n : Int) (runs : Runs) (w : World σ)
    (hf : ((B : Int) - n).toNat < fuel) :
    (ListWaitingRunsLoop S id fuel n runs w).1 ≠ none := by
  induction fuel generalizing n runs w with
  | zero => omega
  | succ f ih =>
    cases hresp : (S.RunsList w.svc id n).1 with
    | error err =>
      rw [ListWaitingRunsLoop_error S id f n runs w err hresp]
      simp
    | ok page =>
      cases hc : mayContinue page n with
      | false =>
        rw [ListWaitingRunsLoop_stop S id f n runs w page hresp hc]
        simp
      | true =>
        rw [ListWaitingRunsLoop_continue S id f n runs w page hresp hc]
        apply ih
        have h1 := mayContinue_next page n hc
        have h2 := hR w.svc id n page hresp
        omega

/-- Claim C2.  The run-list calls one `ListWaitingRuns` adds to the trace obey
the early-termination rule: the first fetch is page 0, after a page whose last
item is pending and whose `NextPage` exceeds the page number the next call
fetches that `NextPage` (unless the fuel of the model ends there), and after
any other page, or an error, no further call is made and the function returns.
For the pages `[estimated, pending]` (next page 2) and `[applied]` exactly two
pages are fetched and `[estimated, pending]` is returned.  When the next-page
indicators of the run listing are bounded by `B`, a fuel above `B` is enough
for the fetch to return. -/
theorem C2_early_termination :
    (∀ (σ : Type) (S : Service σ) (id : String) (fuel : Nat) (w : World σ),
        ∃ evs, (ListWaitingRuns S id fuel w).2.calls = w.calls ++ evs ∧
          fetchChain id 0 evs ((ListWaitingRuns S id fuel w).1.map Prod.snd) = true) ∧
    (ListWaitingRuns twoPageRuns "ws-1" 5 (World.start ())).1 =
        some ([{ ID := "R1", Status := tfe.RunCostEstimated },
               { ID := "R2", Status := tfe.RunPending }], none) ∧
    (ListWaitingRuns twoPageRuns "ws-1" 5 (World.start ())).2.calls =
        [Event.runsList "ws-1" 0
           (Resp.ok { Items := [{ ID := "R1", Status := tfe.RunCostEstimated },
                                { ID := "R2", Status := tfe.RunPending }],
                      NextPage := 2 }),
         Event.runsList "ws-1" 2
           (Resp.ok { Items := [{ ID := "R3", Status := "applied" }], NextPage := 0 })] ∧
    (∀ (σ : Type) (S : Service σ) (B : Nat) (id : String) (fuel : Nat) (w : World σ),
        (∀ s id2 p page, (S.RunsList s id2 p).1 = Resp.ok page → page.NextPage ≤ B) →
        B < fuel →
        ∃ out oerr, (ListWaitingRuns S id fuel w).1 = some (out, oerr)) := by
  refine ⟨?_, by decide, by decide, ?_⟩
  · intro σ S id fuel w
    obtain ⟨evs, hs⟩ := ListWaitingRunsLoop_spec S id fuel 0 [] w
    exact ⟨evs, hs.calls, hs.chain⟩
  · intro σ S B id fuel w hR hfuel
    have hsome := ListWaitingRunsLoop_returns S B hR id fuel 0 [] w (by simpa using hfuel)
    cases hres : (ListWaitingRunsLoop S id fuel 0 [] w).1 with
    | none => exact absurd hres hsome
    | some v => exact ⟨v.1, v.2, hres⟩

/-- Claim C2, witness: the two synthetic pages announce no page beyond 2, so
a fuel of 3 lets the fetch return. -/
theorem C2_early_termination_witness :
    ∃ out oerr, (ListWaitingRuns twoPageRuns "ws-1" 3 (World.start ())).1 = some (out, oerr) :=
  C2_early_termination.2.2.2 Unit twoPageRuns 2 "ws-1" 3 (World.start ())
    (by
      intro s id2 p page h
      simp only [twoPageRuns] at h
      split_ifs at h <;> simp at h <;> subst h <;> simp)
    (by decide)

/-- Claim C3.  When `ListWaitingRuns` returns without error, the returned runs
are the items of the pages it fetched, concatenated in fetch order and
restricted to those with status cost-estimated or pending, order kept, ID and
Status copied; so every returned run is cost-estimated or pending. -/
theorem C3_filtered_concatenation {σ : Type} (S : Service σ) (id : String) (fuel : Nat)
    (w : World σ) (out : Runs)
    (h : (ListWaitingRuns S id fuel w).1 = some (out, none)) :
    ∃ evs, (ListWaitingRuns S id fuel w).2.calls = w.calls ++ evs ∧
      out = ((runPages evs).flatMap fun p => p.Items).filterMap
        (fun r => if r.Status = tfe.RunCostEstimated ∨ r.Status = tfe.RunPending
                  then some { ID := r.ID, Status := r.Status } else none) ∧
      ∀ r ∈ out, r.Status = tfe.RunCostEstimated ∨ r.Status = tfe.RunPending := by
  obtain ⟨evs, hs⟩ := ListWaitingRunsLoop_spec S id fuel 0 [] w
  have ho := hs.out out none h
  have hw : ∀ items : List tfe.Run, waitingOf items = items.filterMap
      (fun r => if r.Status = tfe.RunCostEstimated ∨ r.Status = tfe.RunPending
                then some { ID := r.ID, Status := r.Status } else none) := by
    intro items
    induction items with
    | nil => rfl
    | cons r rest ih =>
      by_cases hr : r.Status = tfe.RunCostEstimated ∨ r.Status = tfe.RunPending
      · simp [List.filterMap_cons, hr, ← ih, waitingOf, isWaiting, List.filter_cons]
      · simp [List.filterMap_cons, hr, ← ih, waitingOf, isWaiting, List.filter_cons]
  refine ⟨evs, hs.calls, ?_, ?_⟩
  · rw [ho, ← hw]; simp
  · intro r hr
    rw [ho] at hr
    simp [waitingOf, isWaiting] at hr
    obtain ⟨a, ⟨_, ha⟩, rfl⟩ := hr
    exact ha

/-- Claim C3, witness: the two synthetic pages. -/
theorem C3_filtered_concatenation_witness :
    ∃ evs, (ListWaitingRuns twoPageRuns "ws-1" 5 (World.start ())).2.calls =
        (World.start ()).calls ++ evs ∧
      [{ ID := "R1", Status := tfe.RunCostEstimated }, { ID := "R2", Status := tfe.RunPending }] =
        ((runPages evs).flatMap fun p => p.Items).filterMap
          (fun r => if r.Status = tfe.RunCostEstimated ∨ r.Status = tfe.RunPending
                    then some ({ ID := r.ID, Status := r.Status } : Run) else none) ∧
      ∀ r ∈ ([{ ID := "R1", Status := tfe.RunCostEstimated },
              { ID := "R2", Status := tfe.RunPending }] : Runs),
        r.Status = tfe.RunCostEstimated ∨ r.Status = tfe.RunPending :=
  C3_filtered_concatenation twoPageRuns "ws-1" 5 (World.start ()) _ (by decide)

/-! ## The workspace scanner -/

theorem FailStop_cons_ok (ev : Event) (evs : List Event) (o : Option (Option Error))
    (hev : ev.failure = none) (h : FailStop evs o) : FailStop (ev :: evs) o := by
  unfold FailStop at *
  split
  · next err =>
    simp only at h
    obtain ⟨pre, last, hpre, hok, hlast⟩ := h
    refine ⟨ev :: pre, last, by simp [hpre], ?_, hlast⟩
    intro e he
    rcases List.mem_cons.1 he with rfl | he
    · exact hev
    · exact hok e he
  · next hne =>
    have h2 : ∀ e ∈ evs, e.failure = none := by
      revert h
      split
      · next err => exact absurd rfl (hne err)
      · exact id
    intro e he
    rcases List.mem_cons.1 he with rfl | he
    · exact hev
    · exact h2 e he

theorem FailStop_append_ok (pre evs : List Event) (o : Option (Option Error))
    (hpre : ∀ ev ∈ pre, ev.failure = none) (h : FailStop evs o) :
    FailStop (pre ++ evs) o := by
  induction pre with
  | nil => simpa using h
  | cons ev rest ih =>
    rw [List.cons_append]
    exact FailStop_cons_ok ev _ o (hpre ev (List.mem_cons_self _ _))
      (ih fun e he => hpre e (List.mem_cons_of_mem _ he))

theorem wsPages_append (xs ys : List Event) :
    wsPages (xs ++ ys) = wsPages xs ++ wsPages ys := by
  induction xs with
  | nil => rfl
  | cons ev rest ih =>
    cases ev with
    | workspacesList org search p r => cases r <;> simp [wsPages, ih]
    | runsList _ _ _ => simp [wsPages, ih]
    | runsApply _ _ _ => simp [wsPages, ih]
    | runsDiscard _ _ _ => simp [wsPages, ih]
    | runsCancel _ _ _ => simp [wsPages, ih]

theorem wsPages_runsList_only (id : String) (evs : List Event)
    (h : ∀ ev ∈ evs, ∃ p r, ev = Event.runsList id p r) : wsPages evs = [] := by
  induction evs with
  | nil => rfl
  | cons ev rest ih =>
    obtain ⟨p, r, rfl⟩ := h ev (List.mem_cons_self _ _)
    simp only [wsPages]
    exact ih fun e he => h e (List.mem_cons_of_mem _ he)

theorem scanItems_skip {σ : Type} (S : Service σ) (target : tfe.RunStatus) (rfuel : Nat)
    (ws : tfe.Workspace) (rest : List tfe.Workspace) (acc : Workspaces) (w : World σ)
    (h : hasStatus target ws = false) :
    scanItems S target rfuel (ws :: rest) acc w = scanItems S target rfuel rest acc w := by
  unfold hasStatus at h
  rw [scanItems]
  cases hc : ws.CurrentRun with
  | none => rfl
  | some cur =>
    rw [hc] at h
    simp at h
    simp [h]

theorem scanItems_fetch {σ : Type} (S : Service σ) (target : tfe.RunStatus) (rfuel : Nat)
    (ws : tfe.Workspace) (rest : List tfe.Workspace) (acc : Workspaces) (w : World σ)
    (h : hasStatus target ws = true) :
    scanItems S target rfuel (ws :: rest) acc w =
      match (ListWaitingRuns S ws.ID rfuel w).1 with
      | none => (none, (ListWaitingRuns S ws.ID rfuel w).2)
      | some (_, some err) => (some (acc, some err), (ListWaitingRuns S ws.ID rfuel w).2)
      | some (runs, none) =>
        scanItems S target rfuel rest
          (acc ++ [{ ID := ws.ID, Name := ws.Name, AutoApply := ws.AutoApply, Runs := runs }])
          (ListWaitingRuns S ws.ID rfuel w).2 := by
  unfold hasStatus at h
  rw [scanItems]
  cases hc : ws.CurrentRun with
  | none => rw [hc] at h; simp at h
  | some cur =>
    rw [hc] at h
    simp at h
    simp only [h, if_true]
    generalize ListWaitingRuns S ws.ID rfuel w = x
    obtain ⟨o, w1⟩ := x
    cases o with
    | none => rfl
    | some v =>
      obtain ⟨q, oerr⟩ := v
      cases oerr <;> rfl

theorem FetchSpec.failure_last {σ : Type} {S : Service σ} {id : String} {n : Int}
    {runs : Runs} {w : World σ} {res : Option (Runs × Option Error) × World σ}
    {evs : List Event} (hs : FetchSpec S id n runs w res evs) (q : Runs) (err : Error)
    (h : res.1 = some (q, some err)) :
    ∃ pre p, evs = pre ++ [Event.runsList id p (Resp.error err)] := by
  have hst := hs.stop
  rw [h] at hst
  obtain ⟨pre, last, hpre, _, hlast⟩ := hst
  obtain ⟨p, r, hr⟩ := hs.only last (by simp [hpre])
  subst hr
  cases r with
  | ok page => simp [Event.failure] at hlast
  | error e =>
    simp [Event.failure] at hlast
    subst hlast
    exact ⟨pre, p, hpre⟩

theorem FetchSpec.all_ok {σ : Type} {S : Service σ} {id : String} {n : Int}
    {runs : Runs} {w : World σ} {res : Option (Runs × Option Error) × World σ}
    {evs : List Event} (hs : FetchSpec S id n runs w res evs) (q : Runs)
    (h : res.1 = some (q, none)) : ∀ ev ∈ evs, ev.failure = none := by
  have hst := hs.stop
  rw [h] at hst
  exact hst

theorem scanItems_spec {σ : Type} (S : Service σ) (target : tfe.RunStatus) (rfuel : Nat)
    (items : List tfe.Workspace) (acc : Workspaces) (w : World σ) :
    ∃ evs, ItemsSpec S target rfuel items acc w (scanItems S target rfuel items acc w) evs := by
  induction items generalizing acc w with
  | nil =>
    refine ⟨[], ?_⟩
    constructor <;> simp [scanItems, wsPages, FailStop]
  | cons ws rest ih =>
    cases hm : hasStatus target ws with
    | false =>
      rw [scanItems_skip S target rfuel ws rest acc w hm]
      obtain ⟨evs, hs⟩ := ih acc w
      refine ⟨evs, ?_⟩
      constructor
      · exact hs.calls
      · exact hs.logs
      · exact hs.noPages
      · exact hs.stop
      · exact hs.lists
      · exact hs.runsOnly
      · exact hs.genuine
      · intro out ho
        simpa [List.filter_cons, hm] using hs.done out ho
      · intro out err ho
        simpa [List.filter_cons, hm] using hs.failed out err ho
    | true =>
      rw [scanItems_fetch S target rfuel ws rest acc w hm]
      obtain ⟨evsR, hr⟩ := ListWaitingRunsLoop_spec S ws.ID rfuel 0 [] w
      have hlistsR : ∀ ev ∈ evsR, ev.isList = true := by
        intro ev hev
        obtain ⟨p, r, rfl⟩ := hr.only ev hev
        rfl
      cases ho : (ListWaitingRuns S ws.ID rfuel w).1 with
      | none =>
        refine ⟨evsR, ?_⟩
        have hst := hr.stop
        rw [show (ListWaitingRunsLoop S ws.ID rfuel 0 [] w).1 = none from ho] at hst
        constructor
        · exact hr.calls
        · exact hr.logs
        · exact wsPages_runsList_only ws.ID evsR hr.only
        · exact hst
        · exact hlistsR
        · exact fun ev hev => ⟨ws.ID, hr.only ev hev⟩
        · exact hr.genuine
        · intro out h; simp at h
        · intro out err h; simp at h
      | some v =>
        obtain ⟨q, oerr⟩ := v
        cases oerr with
        | some err =>
          refine ⟨evsR, ?_⟩
          have hst := hr.stop
          rw [show (ListWaitingRunsLoop S ws.ID rfuel 0 [] w).1 = some (q, some err) from ho]
            at hst
          constructor
          · exact hr.calls
          · exact hr.logs
          · exact wsPages_runsList_only ws.ID evsR hr.only
          · exact hst
          · exact hlistsR
          · exact fun ev hev => ⟨ws.ID, hr.only ev hev⟩
          · exact hr.genuine
          · intro out h; simp at h
          · intro out err2 h
            simp at h
            obtain ⟨rfl, rfl⟩ := h
            refine ⟨[], [], ws, rest.filter (hasStatus target), by simp, ?_, List.Forall₂.nil,
              ⟨w, q, ho⟩, hr.failure_last q err ho⟩
            simp [List.filter_cons, hm]
        | none =>
          obtain ⟨evs, hs⟩ := ih
            (acc ++ [{ ID := ws.ID, Name := ws.Name, AutoApply := ws.AutoApply, Runs := q }])
            (ListWaitingRuns S ws.ID rfuel w).2
          have hokR := hr.all_ok q ho
          have hasm : Assembled S rfuel ws
              { ID := ws.ID, Name := ws.Name, AutoApply := ws.AutoApply, Runs := q } :=
            ⟨rfl, rfl, rfl, w, ho⟩
          refine ⟨evsR ++ evs, ?_⟩
          constructor
          · rw [hs.calls, show (ListWaitingRuns S ws.ID rfuel w).2.calls = w.calls ++ evsR
              from hr.calls]
            simp
          · rw [hs.logs]; exact hr.logs
          · rw [wsPages_append, hs.noPages, wsPages_runsList_only ws.ID evsR hr.only]
            rfl
          · exact FailStop_append_ok evsR evs _ hokR hs.stop
          · intro ev hev
            rcases List.mem_append.1 hev with h1 | h1
            · exact hlistsR ev h1
            · exact hs.lists ev h1
          · intro ev hev
            rcases List.mem_append.1 hev with h1 | h1
            · exact ⟨ws.ID, hr.only ev h1⟩
            · exact hs.runsOnly ev h1
          · intro ev hev
            rcases List.mem_append.1 hev with h1 | h1
            · exact hr.genuine ev h1
            · exact hs.genuine ev h1
          · intro out h
            obtain ⟨new, hnew, hall⟩ := hs.done out h
            refine ⟨({ ID := ws.ID, Name := ws.Name, AutoApply := ws.AutoApply, Runs := q } : Workspace) :: new,
              by simp [hnew], ?_⟩
            simp only [List.filter_cons, hm, if_true]
            exact List.Forall₂.cons hasm hall
          · intro out err h
            obtain ⟨new, fetched, rec, rest2, hnew, hsplit, hall, hfail, pre, p, hlast⟩ :=
              hs.failed out err h
            refine ⟨({ ID := ws.ID, Name := ws.Name, AutoApply := ws.AutoApply, Runs := q } : Workspace) :: new,
              ws :: fetched, rec, rest2, by simp [hnew], ?_,
              List.Forall₂.cons hasm hall, hfail, evsR ++ pre, p, by simp [hlast]⟩
            simp [List.filter_cons, hm, hsplit]

theorem ListWorkspacesLoop_error {σ : Type} (S : Service σ) (org search : String)
    (target : tfe.RunStatus) (rfuel fuel : Nat) (n : Int) (acc : Workspaces) (w : World σ)
    (err : Error) (h : (S.WorkspacesList w.svc org search n).1 = Resp.error err) :
    ListWorkspacesLoop S org search target rfuel (fuel + 1) n acc w =
      (some (acc, some err),
        w.record (S.WorkspacesList w.svc org search n).2
          (Event.workspacesList org search n (Resp.error err))) := by
  simp [ListWorkspacesLoop, h]

theorem ListWorkspacesLoop_ok {σ : Type} (S : Service σ) (org search : String)
    (target : tfe.RunStatus) (rfuel fuel : Nat) (n : Int) (acc : Workspaces) (w : World σ)
    (page : tfe.WorkspaceList) (h : (S.WorkspacesList w.svc org search n).1 = Resp.ok page) :
    ListWorkspacesLoop S org search target rfuel (fuel + 1) n acc w =
      match (scanItems S target rfuel page.Items acc
          (w.record (S.WorkspacesList w.svc org search n).2
            (Event.workspacesList org search n (Resp.ok page)))).1 with
      | none => (none, (scanItems S target rfuel page.Items acc
          (w.record (S.WorkspacesList w.svc org search n).2
            (Event.workspacesList org search n (Resp.ok page)))).2)
      | some (acc1, some err) => (some (acc1, some err),
          (scanItems S target rfuel page.Items acc
            (w.record (S.WorkspacesList w.svc org search n).2
              (Event.workspacesList org search n (Resp.ok page)))).2)
      | some (acc1, none) =>
        if page.NextPage > n then
          ListWorkspacesLoop S org search target rfuel fuel page.NextPage acc1
            (scanItems S target rfuel page.Items acc
              (w.record (S.WorkspacesList w.svc org search n).2
                (Event.workspacesList org search n (Resp.ok page)))).2
        else (some (acc1, none),
          (scanItems S target rfuel page.Items acc
            (w.record (S.WorkspacesList w.svc org search n).2
              (Event.workspacesList org search n (Resp.ok page)))).2) := by
  rw [ListWorkspacesLoop]
  simp only [h]
  generalize scanItems S target rfuel page.Items acc
    (w.record (S.WorkspacesList w.svc org search n).2
      (Event.workspacesList org search n (Resp.ok page))) = x
  obtain ⟨o, w2⟩ := x
  cases o with
  | none => rfl
  | some v =>
    obtain ⟨q, oerr⟩ := v
    cases oerr <;> rfl

theorem recordsOf_append (xs ys : List Event) :
    recordsOf (xs ++ ys) = recordsOf xs ++ recordsOf ys := by
  simp [recordsOf, wsPages_append]

theorem recordsOf_cons_ok (org search : String) (n : Int) (page : tfe.WorkspaceList)
    (evs : List Event) :
    recordsOf (Event.workspacesList org search n (Resp.ok page) :: evs) =
      page.Items ++ recordsOf evs := by
  simp [recordsOf, wsPages]

theorem recordsOf_noPages (evs : List Event) (h : wsPages evs = []) : recordsOf evs = [] := by
  simp [recordsOf, h]

theorem ListWorkspacesLoop_spec {σ : Type} (S : Service σ) (org search : String)
    (target : tfe.RunStatus) (rfuel fuel : Nat) (n : Int) (acc : Workspaces) (w : World σ) :
    ∃ evs, ScanSpec S org search target rfuel acc w
      (ListWorkspacesLoop S org search target rfuel fuel n acc w) evs := by
  induction fuel generalizing n acc w with
  | zero =>
    refine ⟨[], ?_⟩
    constructor <;> simp [ListWorkspacesLoop, FailStop, recordsOf, wsPages]
  | succ fuel ih =>
    cases h : (S.WorkspacesList w.svc org search n).1 with
    | error err =>
      rw [ListWorkspacesLoop_error S org search target rfuel fuel n acc w err h]
      refine ⟨[Event.workspacesList org search n (Resp.error err)], ?_⟩
      constructor
      · simp [World.record]
      · simp [World.record]
      · exact ⟨[], _, rfl, by simp, rfl⟩
      · intro ev hev
        simp at hev
        subst hev
        rfl
      · intro ev hev
        simp at hev
        subst hev
        exact ⟨w.svc, h⟩
      · intro out ho
        simp at ho
      · intro out e ho
        simp at ho
        obtain ⟨rfl, rfl⟩ := ho
        exact ⟨[], [], [], by simp, by simp [recordsOf, wsPages], List.Forall₂.nil,
          Or.inl ⟨rfl, [], n, rfl⟩⟩
    | ok page =>
      rw [ListWorkspacesLoop_ok S org search target rfuel fuel n acc w page h]
      obtain ⟨w1, hw1⟩ : ∃ w1, w1 = w.record (S.WorkspacesList w.svc org search n).2
        (Event.workspacesList org search n (Resp.ok page)) := ⟨_, rfl⟩
      rw [← hw1]
      have hc1 : w1.calls = w.calls ++ [Event.workspacesList org search n (Resp.ok page)] := by
        rw [hw1]; rfl
      have hl1 : w1.logs = w.logs := by rw [hw1]; rfl
      have hev0 : (Event.workspacesList org search n (Resp.ok page)).failure = none := rfl
      obtain ⟨evsI, hi⟩ := scanItems_spec S target rfuel page.Items acc w1
      have hrecI : recordsOf evsI = [] := recordsOf_noPages evsI hi.noPages
      have hlists : ∀ ev ∈ Event.workspacesList org search n (Resp.ok page) :: evsI,
          ev.isList = true := by
        intro ev hev
        rcases List.mem_cons.1 hev with rfl | hev
        · rfl
        · exact hi.lists ev hev
      have hgen : ∀ ev ∈ Event.workspacesList org search n (Resp.ok page) :: evsI,
          ev.genuine S := by
        intro ev hev
        rcases List.mem_cons.1 hev with rfl | hev
        · exact ⟨w.svc, h⟩
        · exact hi.genuine ev hev
      have hstI := hi.stop
      cases ho : (scanItems S target rfuel page.Items acc w1).1 with
      | none =>
        rw [ho] at hstI
        refine ⟨Event.workspacesList org search n (Resp.ok page) :: evsI, ?_⟩
        constructor
        · simp [hi.calls, hc1]
        · simp [hi.logs, hl1]
        · exact FailStop_cons_ok _ _ _ hev0 hstI
        · exact hlists
        · exact hgen
        · intro out hout; simp at hout
        · intro out e hout; simp at hout
      | some v =>
        obtain ⟨acc1, oerr⟩ := v
        cases oerr with
        | some err =>
          rw [ho] at hstI
          refine ⟨Event.workspacesList org search n (Resp.ok page) :: evsI, ?_⟩
          constructor
          · simp [hi.calls, hc1]
          · simp [hi.logs, hl1]
          · exact FailStop_cons_ok _ _ _ hev0 hstI
          · exact hlists
          · exact hgen
          · intro out hout; simp at hout
          · intro out e hout
            simp at hout
            obtain ⟨rfl, rfl⟩ := hout
            obtain ⟨new, fetched, rec, rest2, hnew, hsplit, hall, hfail, pre, p, hlast⟩ :=
              hi.failed acc1 err ho
            refine ⟨new, fetched, rec :: rest2, hnew, ?_, hall,
              Or.inr ⟨rec, rest2, rfl, hfail,
                Event.workspacesList org search n (Resp.ok page) :: pre, p, by simp [hlast]⟩⟩
            rw [recordsOf_cons_ok, hrecI, List.append_nil, hsplit]
        | none =>
          rw [ho] at hstI
          obtain ⟨newI, hnewI, hallI⟩ := hi.done acc1 ho
          by_cases hn : page.NextPage > n
          · simp only [hn, if_true]
            obtain ⟨evsR, hr⟩ := ih page.NextPage acc1 (scanItems S target rfuel page.Items acc w1).2
            refine ⟨Event.workspacesList org search n (Resp.ok page) :: (evsI ++ evsR), ?_⟩
            have hrec : recordsOf
                (Event.workspacesList org search n (Resp.ok page) :: (evsI ++ evsR)) =
                page.Items ++ recordsOf evsR := by
              rw [recordsOf_cons_ok, recordsOf_append, hrecI, List.nil_append]
            constructor
            · simp [hr.calls, hi.calls, hc1]
            · simp [hr.logs, hi.logs, hl1]
            · exact FailStop_cons_ok _ _ _ hev0 (FailStop_append_ok evsI evsR _ hstI hr.stop)
            · intro ev hev
              rcases List.mem_cons.1 hev with rfl | hev
              · rfl
              · rcases List.mem_append.1 hev with h1 | h1
                · exact hi.lists ev h1
                · exact hr.lists ev h1
            · intro ev hev
              rcases List.mem_cons.1 hev with rfl | hev
              · exact ⟨w.svc, h⟩
              · rcases List.mem_append.1 hev with h1 | h1
                · exact hi.genuine ev h1
                · exact hr.genuine ev h1
            · intro out hout
              obtain ⟨newR, hnewR, hallR⟩ := hr.done out hout
              refine ⟨newI ++ newR, by simp [hnewR, hnewI], ?_⟩
              rw [hrec, List.filter_append]
              exact List.rel_append hallI hallR
            · intro out e hout
              obtain ⟨newR, fetched, rest, hnewR, hsplit, hallR, hlast⟩ := hr.failed out e hout
              refine ⟨newI ++ newR, page.Items.filter (hasStatus target) ++ fetched, rest,
                by simp [hnewR, hnewI], ?_, List.rel_append hallI hallR, ?_⟩
              · rw [hrec, List.filter_append, hsplit, List.append_assoc]
              · rcases hlast with ⟨hnil, pre, p, hpre⟩ | ⟨rec, rest2, hrest, hfail, pre, p, hpre⟩
                · exact Or.inl ⟨hnil,
                    Event.workspacesList org search n (Resp.ok page) :: (evsI ++ pre), p,
                    by simp [hpre]⟩
                · exact Or.inr ⟨rec, rest2, hrest, hfail,
                    Event.workspacesList org search n (Resp.ok page) :: (evsI ++ pre), p,
                    by simp [hpre]⟩
          · simp only [hn, if_false]
            refine ⟨Event.workspacesList org search n (Resp.ok page) :: evsI, ?_⟩
            constructor
            · simp [hi.calls, hc1]
            · simp [hi.logs, hl1]
            · exact FailStop_cons_ok _ _ _ hev0 hstI
            · exact hlists
            · exact hgen
            · intro out hout
              simp at hout
              subst hout
              refine ⟨newI, hnewI, ?_⟩
              rw [recordsOf_cons_ok, hrecI, List.append_nil]
              exact hallI
            · intro out e hout; simp at hout

theorem Forall₂_imp_mem {α β : Type} {R Q : α → β → Prop} {l : List α} {out : List β}
    (h : List.Forall₂ R l out) (hq : ∀ a b, a ∈ l → R a b → Q a b) :
    List.Forall₂ Q l out := by
  induction h with
  | nil => exact List.Forall₂.nil
  | cons hab _ ih =>
    exact List.Forall₂.cons (hq _ _ (List.mem_cons_self _ _) hab)
      (ih fun a b ha => hq a b (List.mem_cons_of_mem _ ha))

theorem hasStatus_iff (target : tfe.RunStatus) (rec : tfe.Workspace) :
    hasStatus target rec = true ↔ ∃ cur, rec.CurrentRun = some cur ∧ cur.Status = target := by
  unfold hasStatus
  cases rec.CurrentRun with
  | none => simp
  | some cur => simp

/-- Claim C4.  When `ListWorkspacesWithRunStatus` returns without error, its
result lines up, in the order the service returned them, with exactly the
records of the fetched pages that have a current run whose status is the
target status; each returned workspace carries the ID, Name and AutoApply of
its record and a run queue `ListWaitingRuns` returned for that ID. -/
theorem C4_scanner_result {σ : Type} (S : Service σ) (org search : String)
    (target : tfe.RunStatus) (fuel rfuel : Nat) (w : World σ) (out : Workspaces)
    (h : (ListWorkspacesWithRunStatus S org search target fuel rfuel w).1 = some (out, none)) :
    ∃ evs, (ListWorkspacesWithRunStatus S org search target fuel rfuel w).2.calls =
        w.calls ++ evs ∧
      List.Forall₂
        (fun rec ws =>
          (∃ cur, rec.CurrentRun = some cur ∧ cur.Status = target) ∧
          ws.ID = rec.ID ∧ ws.Name = rec.Name ∧ ws.AutoApply = rec.AutoApply ∧
          ∃ w1 : World σ, (ListWaitingRuns S rec.ID rfuel w1).1 = some (ws.Runs, none))
        ((recordsOf evs).filter (hasStatus target)) out := by
  obtain ⟨evs, hs⟩ := ListWorkspacesLoop_spec S org search target rfuel fuel 0 [] w
  obtain ⟨new, hnew, hall⟩ := hs.done out h
  simp only [List.nil_append] at hnew
  subst hnew
  refine ⟨evs, hs.calls, Forall₂_imp_mem hall ?_⟩
  intro rec ws hmem hasm
  exact ⟨(hasStatus_iff target rec).1 (List.mem_filter.1 hmem).2, hasm⟩

/-- Claim C4, witness: the scan of the scenario organization returns W1 and W2
with their queues. -/
theorem C4_scanner_result_witness :
    (ListWorkspacesWithRunStatus acmeService "acme" "" tfe.RunCostEstimated 5 5
        (World.start ())).1 = some ([scenarioW1, scenarioW2], none) ∧
    ∃ evs, (ListWorkspacesWithRunStatus acmeService "acme" "" tfe.RunCostEstimated 5 5
        (World.start ())).2.calls = (World.start ()).calls ++ evs ∧
      List.Forall₂
        (fun rec ws =>
          (∃ cur, rec.CurrentRun = some cur ∧ cur.Status = tfe.RunCostEstimated) ∧
          ws.ID = rec.ID ∧ ws.Name = rec.Name ∧ ws.AutoApply = rec.AutoApply ∧
          ∃ w1 : World Unit,
            (ListWaitingRuns acmeService rec.ID 5 w1).1 = some (ws.Runs, none))
        ((recordsOf evs).filter (hasStatus tfe.RunCostEstimated))
        [scenarioW1, scenarioW2] :=
  ⟨by decide,
   C4_scanner_result acmeService "acme" "" tfe.RunCostEstimated 5 5 (World.start ())
     [scenarioW1, scenarioW2] (by decide)⟩

/-- Claim C7.  If a workspace-list or run-list call made by
`ListWorkspacesWithRunStatus` returns an error, the function returns that same
error, the failed call is the last service call and every call before it
succeeded, and the workspaces returned next to the error are exactly those
assembled before the failure: all matching records of the fetched pages when a
workspace-list call failed, the matching records before the one whose run
fetch failed (that one excluded) when a run-list call failed. -/
theorem C7_error_propagation {σ : Type} (S : Service σ) (org search : String)
    (target : tfe.RunStatus) (fuel rfuel : Nat) (w : World σ) (evs : List Event)
    (hcalls : (ListWorkspacesWithRunStatus S org search target fuel rfuel w).2.calls =
      w.calls ++ evs)
    (ev : Event) (hev : ev ∈ evs) (err : Error) (hfail : ev.failure = some err) :
    ∃ out, (ListWorkspacesWithRunStatus S org search target fuel rfuel w).1 =
        some (out, some err) ∧
      (∃ pre, evs = pre ++ [ev] ∧ ∀ e ∈ pre, e.failure = none) ∧
      ∃ fetched rest, (recordsOf evs).filter (hasStatus target) = fetched ++ rest ∧
        List.Forall₂ (Assembled S rfuel) fetched out ∧
        ((rest = [] ∧ ∃ p, ev = Event.workspacesList org search p (Resp.error err)) ∨
         (∃ rec rest2, rest = rec :: rest2 ∧
            (∃ p, ev = Event.runsList rec.ID p (Resp.error err)) ∧
            FetchFailed S rfuel rec err)) := by
  obtain ⟨evs2, hs⟩ := ListWorkspacesLoop_spec S org search target rfuel fuel 0 [] w
  have heq : evs2 = evs := List.append_cancel_left (hs.calls.symm.trans hcalls)
  subst heq
  have hst := hs.stop
  have hnone : ev.failure ≠ none := by rw [hfail]; simp
  cases hres : (ListWorkspacesLoop S org search target rfuel fuel 0 [] w).1 with
  | none =>
    rw [hres] at hst
    exact absurd (hst ev hev) hnone
  | some v =>
    obtain ⟨out, oerr⟩ := v
    cases oerr with
    | none =>
      rw [hres] at hst
      exact absurd (hst ev hev) hnone
    | some e0 =>
      rw [hres] at hst
      obtain ⟨pre, last, hpre, hok, hlast⟩ := hst
      have hevl : ev = last := by
        rw [hpre] at hev
        rcases List.mem_append.1 hev with h1 | h1
        · exact absurd (hok ev h1) hnone
        · simpa using h1
      subst hevl
      have he : e0 = err := by
        rw [hlast] at hfail
        exact Option.some.inj hfail
      subst he
      obtain ⟨new, fetched, rest, hnew, hsplit, hall, hdisj⟩ := hs.failed out e0 hres
      simp only [List.nil_append] at hnew
      subst hnew
      refine ⟨out, hres, ⟨pre, hpre, hok⟩, fetched, rest, hsplit, hall, ?_⟩
      rcases hdisj with ⟨hnil, pre2, p, hp⟩ | ⟨rec, rest2, hrest, hff, pre2, p, hp⟩
      · refine Or.inl ⟨hnil, p, ?_⟩
        have h2 := congrArg List.getLast? (hpre.symm.trans hp)
        simpa using h2
      · refine Or.inr ⟨rec, rest2, hrest, ⟨p, ?_⟩, hff⟩
        have h2 := congrArg List.getLast? (hpre.symm.trans hp)
        simpa using h2

/-- Claim C7, witness: the run-list endpoint fails for W2 on page 2 of the
listing; the scan returns the error next to W1 alone. -/
theorem C7_error_propagation_witness :
    (ListWorkspacesWithRunStatus brokenService "acme" "" tfe.RunCostEstimated 5 5
        (World.start ())).1 = some ([scenarioW1], some "boom") ∧
    ∃ out, (ListWorkspacesWithRunStatus brokenService "acme" "" tfe.RunCostEstimated 5 5
        (World.start ())).1 = some (out, some "boom") ∧
      (∃ pre,
        [Event.workspacesList "acme" "" 0 (brokenService.WorkspacesList () "acme" "" 0).1,
         Event.runsList "ws-1" 0 (brokenService.RunsList () "ws-1" 0).1,
         Event.workspacesList "acme" "" 2 (brokenService.WorkspacesList () "acme" "" 2).1,
         Event.runsList "ws-2" 0 (Resp.error "boom")] =
          pre ++ [Event.runsList "ws-2" 0 (Resp.error "boom")] ∧
        ∀ e ∈ pre, e.failure = none) ∧
      ∃ fetched rest,
        (recordsOf
          [Event.workspacesList "acme" "" 0 (brokenService.WorkspacesList () "acme" "" 0).1,
           Event.runsList "ws-1" 0 (brokenService.RunsList () "ws-1" 0).1,
           Event.workspacesList "acme" "" 2 (brokenService.WorkspacesList () "acme" "" 2).1,
           Event.runsList "ws-2" 0 (Resp.error "boom")]).filter
            (hasStatus tfe.RunCostEstimated) = fetched ++ rest ∧
        List.Forall₂ (Assembled brokenService 5) fetched out ∧
        ((rest = [] ∧ ∃ p, Event.runsList "ws-2" 0 (Resp.error "boom") =
            Event.workspacesList "acme" "" p (Resp.error "boom")) ∨
         (∃ rec rest2, rest = rec :: rest2 ∧
            (∃ p, Event.runsList "ws-2" 0 (Resp.error "boom") =
              Event.runsList rec.ID p (Resp.error "boom")) ∧
            FetchFailed brokenService 5 rec "boom")) :=
  ⟨by decide,
   C7_error_propagation brokenService "acme" "" tfe.RunCostEstimated 5 5 (World.start ())
    [Event.workspacesList "acme" "" 0 (brokenService.WorkspacesList () "acme" "" 0).1,
     Event.runsList "ws-1" 0 (brokenService.RunsList () "ws-1" 0).1,
     Event.workspacesList "acme" "" 2 (brokenService.WorkspacesList () "acme" "" 2).1,
     Event.runsList "ws-2" 0 (Resp.error "boom")]
    (by decide) (Event.runsList "ws-2" 0 (Resp.error "boom")) (by decide) "boom" rfl⟩

theorem waitingOf_status (items : List tfe.Run) :
    ∀ r ∈ waitingOf items, r.Status = tfe.RunCostEstimated ∨ r.Status = tfe.RunPending := by
  intro r hr
  simp [waitingOf, isWaiting] at hr
  obtain ⟨a, ⟨_, ha⟩, rfl⟩ := hr
  exact ha

theorem ListWaitingRuns_first_page {σ : Type} (S : Service σ) (id : String) (rfuel : Nat)
    (w : World σ) (runs : Runs) (h : (ListWaitingRuns S id rfuel w).1 = some (runs, none)) :
    ∃ s rpage more, (S.RunsList s id 0).1 = Resp.ok rpage ∧
      runs = waitingOf rpage.Items ++ more ∧
      ∀ r ∈ more, r.Status = tfe.RunCostEstimated ∨ r.Status = tfe.RunPending := by
  unfold ListWaitingRuns at h
  cases rfuel with
  | zero => simp [ListWaitingRunsLoop] at h
  | succ f =>
    cases hresp : (S.RunsList w.svc id 0).1 with
    | error err =>
      rw [ListWaitingRunsLoop_error S id f 0 [] w err hresp] at h
      simp at h
    | ok rpage =>
      cases hc : mayContinue rpage 0 with
      | false =>
        rw [ListWaitingRunsLoop_stop S id f 0 [] w rpage hresp hc] at h
        simp at h
        exact ⟨w.svc, rpage, [], hresp, by simp [h], by simp⟩
      | true =>
        rw [ListWaitingRunsLoop_continue S id f 0 [] w rpage hresp hc] at h
        obtain ⟨evs, hs⟩ := ListWaitingRunsLoop_spec S id f rpage.NextPage
          ([] ++ waitingOf rpage.Items)
          (w.record (S.RunsList w.svc id 0).2 (Event.runsList id 0 (Resp.ok rpage)))
        have ho := hs.out runs none h
        exact ⟨w.svc, rpage, _, hresp, by simpa using ho, waitingOf_status _⟩

theorem mem_wsPages_genuine {σ : Type} (S : Service σ) (evs : List Event)
    (hg : ∀ ev ∈ evs, ev.genuine S) (page : tfe.WorkspaceList) (hp : page ∈ wsPages evs) :
    ∃ s org search p, (S.WorkspacesList s org search p).1 = Resp.ok page := by
  induction evs with
  | nil => simp [wsPages] at hp
  | cons ev rest ih =>
    have hrest : ∀ e ∈ rest, e.genuine S := fun e he => hg e (List.mem_cons_of_mem _ he)
    cases ev with
    | workspacesList org search p r =>
      cases r with
      | ok pg =>
        simp only [wsPages, List.mem_cons] at hp
        rcases hp with rfl | hp
        · obtain ⟨s, hs⟩ := hg _ (List.mem_cons_self _ _)
          exact ⟨s, org, search, p, hs⟩
        · exact ih hrest hp
      | error e => exact ih hrest (by simpa [wsPages] using hp)
    | runsList _ _ _ => exact ih hrest (by simpa [wsPages] using hp)
    | runsApply _ _ _ => exact ih hrest (by simpa [wsPages] using hp)
    | runsDiscard _ _ _ => exact ih hrest (by simpa [wsPages] using hp)
    | runsCancel _ _ _ => exact ih hrest (by simpa [wsPages] using hp)

/-- Claim C5 as amended.  Assume the run-list endpoint lists a workspace's
current run first: whenever the workspace listing reports `cur` as the current
run of a record, every first page the run listing serves for that workspace ID
starts with `cur`.  Then, for target status cost-estimated, every workspace
`ListWorkspacesWithRunStatus` returns has a non-empty `Runs`, position 0 is
the current run of its record (same ID, status cost-estimated), and every run
at a later position is cost-estimated or pending. -/
theorem C5_position_zero {σ : Type} (S : Service σ) (org search : String)
    (fuel rfuel : Nat) (w : World σ) (out : Workspaces)
    (hfirst : ∀ s org2 search2 p page rec cur,
      (S.WorkspacesList s org2 search2 p).1 = Resp.ok page → rec ∈ page.Items →
      rec.CurrentRun = some cur →
      ∀ s2 rpage, (S.RunsList s2 rec.ID 0).1 = Resp.ok rpage → rpage.Items.head? = some cur)
    (h : (ListWorkspacesWithRunStatus S org search tfe.RunCostEstimated fuel rfuel w).1 =
      some (out, none)) :
    ∃ evs, (ListWorkspacesWithRunStatus S org search tfe.RunCostEstimated fuel rfuel w).2.calls =
        w.calls ++ evs ∧
      List.Forall₂
        (fun rec ws =>
          ∃ cur rest, rec.CurrentRun = some cur ∧ ws.ID = rec.ID ∧
            ws.Runs = { ID := cur.ID, Status := tfe.RunCostEstimated } :: rest ∧
            ∀ r ∈ rest, r.Status = tfe.RunCostEstimated ∨ r.Status = tfe.RunPending)
        ((recordsOf evs).filter (hasStatus tfe.RunCostEstimated)) out := by
  obtain ⟨evs, hs⟩ := ListWorkspacesLoop_spec S org search tfe.RunCostEstimated rfuel fuel 0 [] w
  obtain ⟨new, hnew, hall⟩ := hs.done out h
  simp only [List.nil_append] at hnew
  subst hnew
  refine ⟨evs, hs.calls, Forall₂_imp_mem hall ?_⟩
  intro rec ws hmem hasm
  obtain ⟨hrec, hst⟩ := List.mem_filter.1 hmem
  obtain ⟨cur, hcur, hcs⟩ := (hasStatus_iff _ rec).1 hst
  obtain ⟨hid, _, _, w1, hq⟩ := hasm
  obtain ⟨s2, rpage, more, hresp, hruns, hmore⟩ :=
    ListWaitingRuns_first_page S rec.ID rfuel w1 ws.Runs hq
  simp only [recordsOf, List.mem_flatMap] at hrec
  obtain ⟨page, hpage, hrecp⟩ := hrec
  obtain ⟨s, org2, search2, p, hws⟩ := mem_wsPages_genuine S evs hs.genuine page hpage
  have hhead := hfirst s org2 search2 p page rec cur hws hrecp hcur s2 rpage hresp
  cases hitems : rpage.Items with
  | nil => rw [hitems] at hhead; simp at hhead
  | cons r0 tl =>
    rw [hitems] at hhead
    simp at hhead
    subst hhead
    refine ⟨r0, waitingOf tl ++ more, hcur, hid, ?_, ?_⟩
    · rw [hruns, hitems]
      simp [waitingOf, isWaiting, List.filter_cons, hcs]
    · intro r hr
      rcases List.mem_append.1 hr with h1 | h1
      · exact waitingOf_status tl r h1
      · exact hmore r h1

/-- Claim C5, counterexample.  The workspace listing reports R1 as the current
run of W1 while the run listing serves the newer pending run R2 before R1; the
scan returns W1 with `Runs = [R2, R1]`, so position 0 is not the current run. -/
theorem C5_counterexample :
    (newestFirstService.WorkspacesList () "acme" "" 0).1 =
      Resp.ok { Items := [{ ID := "ws-1", Name := "W1", AutoApply := true,
                            CurrentRun := some { ID := "R1", Status := tfe.RunCostEstimated } }],
                NextPage := 0 } ∧
    (ListWorkspacesWithRunStatus newestFirstService "acme" "" tfe.RunCostEstimated 5 5
        (World.start ())).1 =
      some ([{ ID := "ws-1", Name := "W1", AutoApply := true,
               Runs := [{ ID := "R2", Status := tfe.RunPending },
                        { ID := "R1", Status := tfe.RunCostEstimated }] }], none) ∧
    ("R2" : String) ≠ "R1" := by
  decide

/-- Claim C5 as amended, witness: the scenario organization lists every
current run first. -/
theorem C5_position_zero_witness :
    ∃ evs, (ListWorkspacesWithRunStatus acmeService "acme" "" tfe.RunCostEstimated 5 5
        (World.start ())).2.calls = (World.start ()).calls ++ evs ∧
      List.Forall₂
        (fun rec ws =>
          ∃ cur rest, rec.CurrentRun = some cur ∧ ws.ID = rec.ID ∧
            ws.Runs = { ID := cur.ID, Status := tfe.RunCostEstimated } :: rest ∧
            ∀ r ∈ rest, r.Status = tfe.RunCostEstimated ∨ r.Status = tfe.RunPending)
        ((recordsOf evs).filter (hasStatus tfe.RunCostEstimated))
        [scenarioW1, scenarioW2] :=
  C5_position_zero acmeService "acme" "" 5 5 (World.start ()) [scenarioW1, scenarioW2]
    (by
      intro s org2 search2 p page rec cur hpage hrec hcur s2 rpage hr
      by_cases hp : p ≤ 1
      · simp [acmeService, hp] at hpage
        subst hpage
        simp at hrec
        rcases hrec with rfl | rfl
        · simp at hcur
          subst hcur
          simp [acmeService] at hr
          subst hr
          rfl
        · simp at hcur
      · simp [acmeService, hp] at hpage
        subst hpage
        simp at hrec
        rcases hrec with rfl | rfl
        · simp at hcur
          subst hcur
          simp [acmeService] at hr
          subst hr
          rfl
        · simp at hcur
          subst hcur
          simp [acmeService] at hr
          subst hr
          rfl)
    (by decide)

/-! ## Termination of the two pagination loops -/

theorem scanItems_returns {σ : Type} (S : Service σ) (target : tfe.RunStatus) (rfuel : Nat)
    (hret : ∀ id (w : World σ), (ListWaitingRuns S id rfuel w).1 ≠ none)
    (items : List tfe.Workspace) (acc : Workspaces) (w : World σ) :
    (scanItems S target rfuel items acc w).1 ≠ none := by
  induction items generalizing acc w with
  | nil => simp [scanItems]
  | cons ws rest ih =>
    cases hm : hasStatus target ws with
    | false =>
      rw [scanItems_skip S target rfuel ws rest acc w hm]
      exact ih acc w
    | true =>
      rw [scanItems_fetch S target rfuel ws rest acc w hm]
      cases ho : (ListWaitingRuns S ws.ID rfuel w).1 with
      | none => exact absurd ho (hret ws.ID w)
      | some v =>
        obtain ⟨q, oerr⟩ := v
        cases oerr with
        | some err => simp
        | none => exact ih _ _

theorem wsRequests_append (xs ys : List Event) :
    wsRequests (xs ++ ys) = wsRequests xs ++ wsRequests ys := by
  induction xs with
  | nil => rfl
  | cons ev rest ih => cases ev <;> simp [wsRequests, ih]

theorem wsRequests_runsOnly (evs : List Event)
    (h : ∀ ev ∈ evs, ∃ id p r, ev = Event.runsList id p r) : wsRequests evs = [] := by
  induction evs with
  | nil => rfl
  | cons ev rest ih =>
    obtain ⟨id, p, r, rfl⟩ := h ev (List.mem_cons_self _ _)
    simp only [wsRequests]
    exact ih fun e he => h e (List.mem_cons_of_mem _ he)

theorem drop_pred {α : Type} (pages : List α) (d : α) (q : Nat) (hq : 1 ≤ q)
    (hle : q ≤ pages.length) : pages.drop (q - 1) = pages.getD (q - 1) d :: pages.drop q := by
  have hlt : q - 1 < pages.length := by omega
  rw [List.drop_eq_getElem_cons hlt, List.getD_eq_getElem _ _ hlt]
  congr 2
  omega

theorem servePage_at (pages : List (List tfe.Workspace)) (q : Nat) (n : Int) (hq : 1 ≤ q)
    (hn : n = (q : Int) ∨ (n = 0 ∧ q = 1)) :
    servePage pages n =
      { Items := pages.getD (q - 1) [],
        NextPage := if q < pages.length then ((q + 1 : Nat) : Int) else 0 } := by
  have hq2 : (if n ≤ 1 then 1 else n.toNat) = q := by
    rcases hn with rfl | ⟨rfl, rfl⟩
    · split_ifs with h
      · omega
      · simp
    · simp
  unfold servePage
  simp only [hq2]

theorem pagedScan {σ : Type} (S : Service σ) (pages : List (List tfe.Workspace))
    (org search : String) (target : tfe.RunStatus) (rfuel : Nat)
    (hW : ∀ s org2 search2 p,
      (S.WorkspacesList s org2 search2 p).1 = Resp.ok (servePage pages p))
    (fuel : Nat) (k q : Nat) (n : Int) (acc : Workspaces) (w : World σ)
    (hq : 1 ≤ q) (hk : q + k = pages.length) (hn : n = (q : Int) ∨ (n = 0 ∧ q = 1)) :
    ∃ evs,
      (ListWorkspacesLoop S org search target rfuel fuel n acc w).2.calls = w.calls ++ evs ∧
      wsRequests evs <+: n :: (List.range' (q + 1) k).map Int.ofNat ∧
      (∀ out, (ListWorkspacesLoop S org search target rfuel fuel n acc w).1 = some (out, none) →
        wsRequests evs = n :: (List.range' (q + 1) k).map Int.ofNat ∧
        (wsPages evs).map (fun p => p.Items) = pages.drop (q - 1)) ∧
      ((∀ id (w : World σ), (ListWaitingRuns S id rfuel w).1 ≠ none) → k < fuel →
        (ListWorkspacesLoop S org search target rfuel fuel n acc w).1 ≠ none) := by
  induction fuel generalizing k q n acc w with
  | zero =>
    refine ⟨[], by simp [ListWorkspacesLoop], List.nil_prefix, ?_, ?_⟩
    · intro out h; simp [ListWorkspacesLoop] at h
    · intro _ h; omega
  | succ f ih =>
    have hresp : (S.WorkspacesList w.svc org search n).1 = Resp.ok (servePage pages n) :=
      hW w.svc org search n
    rw [ListWorkspacesLoop_ok S org search target rfuel f n acc w _ hresp]
    have hsp := servePage_at pages q n hq hn
    obtain ⟨w1, hw1⟩ : ∃ w1, w1 = w.record (S.WorkspacesList w.svc org search n).2
      (Event.workspacesList org search n (Resp.ok (servePage pages n))) := ⟨_, rfl⟩
    rw [← hw1]
    have hc1 : w1.calls =
        w.calls ++ [Event.workspacesList org search n (Resp.ok (servePage pages n))] := by
      rw [hw1]; rfl
    obtain ⟨evsI, hi⟩ := scanItems_spec S target rfuel (servePage pages n).Items acc w1
    have hreqI : wsRequests evsI = [] := wsRequests_runsOnly evsI hi.runsOnly
    have hitems : (servePage pages n).Items = pages.getD (q - 1) [] := by rw [hsp]
    have hone : wsRequests
        (Event.workspacesList org search n (Resp.ok (servePage pages n)) :: evsI) <+:
        n :: (List.range' (q + 1) k).map Int.ofNat := by
      simp only [wsRequests, hreqI]
      exact ⟨_, rfl⟩
    cases ho : (scanItems S target rfuel (servePage pages n).Items acc w1).1 with
    | none =>
      refine ⟨Event.workspacesList org search n (Resp.ok (servePage pages n)) :: evsI,
        by simp [hi.calls, hc1], hone, ?_, ?_⟩
      · intro out h; simp at h
      · intro hret _
        exact absurd ho (scanItems_returns S target rfuel hret _ acc w1)
    | some v =>
      obtain ⟨acc1, oerr⟩ := v
      cases oerr with
      | some err =>
        refine ⟨Event.workspacesList org search n (Resp.ok (servePage pages n)) :: evsI,
          by simp [hi.calls, hc1], hone, ?_, ?_⟩
        · intro out h; simp at h
        · intro _ _; simp
      | none =>
        by_cases hqN : q < pages.length
        · have hnext : (servePage pages n).NextPage = ((q + 1 : Nat) : Int) := by
            rw [hsp]; simp [hqN]
          have hgt : (servePage pages n).NextPage > n := by
            rw [hnext]
            rcases hn with rfl | ⟨rfl, rfl⟩ <;> omega
          simp only [hgt, if_true]
          rw [hnext]
          obtain ⟨k2, rfl⟩ : ∃ k2, k = k2 + 1 := ⟨k - 1, by omega⟩
          obtain ⟨evsR, hcalls, hpre, hdone, hreturns⟩ :=
            ih k2 (q + 1) ((q + 1 : Nat) : Int) acc1
              (scanItems S target rfuel (servePage pages n).Items acc w1).2
              (by omega) (by omega) (Or.inl rfl)
          refine ⟨
            Event.workspacesList org search n (Resp.ok (servePage pages n)) :: (evsI ++ evsR),
            by rw [hcalls, hi.calls, hc1]; simp, ?_, ?_, ?_⟩
          · simp only [wsRequests, wsRequests_append, hreqI, List.nil_append,
              List.range'_succ, List.map_cons]
            exact (List.prefix_cons_inj n).2 hpre
          · intro out hout
            obtain ⟨h1, h2⟩ := hdone out hout
            constructor
            · simp only [wsRequests, wsRequests_append, hreqI, List.nil_append,
                List.range'_succ, List.map_cons, h1]
              rfl
            · simp only [wsPages, wsPages_append, hi.noPages, List.nil_append, List.map_cons,
                h2, hitems]
              simpa using (drop_pred pages [] q hq (by omega)).symm
          · intro hret hf
            exact hreturns hret (by omega)
        · have hnext : (servePage pages n).NextPage = 0 := by
            rw [hsp]; simp [hqN]
          have hgt : ¬ (servePage pages n).NextPage > n := by
            rw [hnext]
            rcases hn with rfl | ⟨rfl, rfl⟩ <;> omega
          simp only [hgt, if_false]
          have hk0 : k = 0 := by omega
          subst hk0
          refine ⟨Event.workspacesList org search n (Resp.ok (servePage pages n)) :: evsI,
            by simp [hi.calls, hc1], hone, ?_, ?_⟩
          · intro _ _
            constructor
            · simp [wsRequests, hreqI]
            · simp only [wsPages, hi.noPages, List.map_cons, List.map_nil, hitems]
              rw [drop_pred pages [] q hq (by omega), List.drop_of_length_le (by omega)]
          · intro _ _; simp

theorem wsCalls_append (xs ys : List Event) :
    wsCalls (xs ++ ys) = wsCalls xs ++ wsCalls ys := by
  induction xs with
  | nil => rfl
  | cons ev rest ih => cases ev <;> simp [wsCalls, ih]

theorem wsCalls_runsOnly (evs : List Event)
    (h : ∀ ev ∈ evs, ∃ id p r, ev = Event.runsList id p r) : wsCalls evs = [] := by
  induction evs with
  | nil => rfl
  | cons ev rest ih =>
    obtain ⟨id, p, r, rfl⟩ := h ev (List.mem_cons_self _ _)
    simp only [wsCalls]
    exact ih fun e he => h e (List.mem_cons_of_mem _ he)

theorem ListWorkspacesLoop_chain {σ : Type} (S : Service σ) (org search : String)
    (target : tfe.RunStatus) (rfuel fuel : Nat) (n : Int) (acc : Workspaces) (w : World σ) :
    ∃ evs,
      (ListWorkspacesLoop S org search target rfuel fuel n acc w).2.calls = w.calls ++ evs ∧
      pageChain n (wsCalls evs)
        ((ListWorkspacesLoop S org search target rfuel fuel n acc w).1.map Prod.snd) = true := by
  induction fuel generalizing n acc w with
  | zero => exact ⟨[], by simp [ListWorkspacesLoop], by simp [ListWorkspacesLoop, wsCalls, pageChain]⟩
  | succ fuel ih =>
    cases h : (S.WorkspacesList w.svc org search n).1 with
    | error err =>
      rw [ListWorkspacesLoop_error S org search target rfuel fuel n acc w err h]
      exact ⟨[Event.workspacesList org search n (Resp.error err)], by simp [World.record],
        by simp [wsCalls, pageChain]⟩
    | ok page =>
      rw [ListWorkspacesLoop_ok S org search target rfuel fuel n acc w page h]
      obtain ⟨w1, hw1⟩ : ∃ w1, w1 = w.record (S.WorkspacesList w.svc org search n).2
        (Event.workspacesList org search n (Resp.ok page)) := ⟨_, rfl⟩
      rw [← hw1]
      have hc1 : w1.calls = w.calls ++ [Event.workspacesList org search n (Resp.ok page)] := by
        rw [hw1]; rfl
      obtain ⟨evsI, hi⟩ := scanItems_spec S target rfuel page.Items acc w1
      have hcI : wsCalls evsI = [] := wsCalls_runsOnly evsI hi.runsOnly
      cases ho : (scanItems S target rfuel page.Items acc w1).1 with
      | none =>
        exact ⟨Event.workspacesList org search n (Resp.ok page) :: evsI,
          by simp [hi.calls, hc1], by simp [wsCalls, hcI, pageChain]⟩
      | some v =>
        obtain ⟨acc1, oerr⟩ := v
        cases oerr with
        | some err =>
          exact ⟨Event.workspacesList org search n (Resp.ok page) :: evsI,
            by simp [hi.calls, hc1], by simp [wsCalls, hcI, pageChain]⟩
        | none =>
          by_cases hn : page.NextPage > n
          · simp only [hn, if_true]
            obtain ⟨evsR, hcalls, hchain⟩ :=
              ih page.NextPage acc1 (scanItems S target rfuel page.Items acc w1).2
            refine ⟨Event.workspacesList org search n (Resp.ok page) :: (evsI ++ evsR),
              by rw [hcalls, hi.calls, hc1]; simp, ?_⟩
            simp only [wsCalls, wsCalls_append, hcI, List.nil_append]
            cases hR : wsCalls evsR with
            | nil =>
              rw [hR] at hchain
              simp only [pageChain, beq_iff_eq] at hchain
              simp [pageChain, hchain]
            | cons c rest =>
              rw [hR] at hchain
              simp [pageChain, hn, hchain]
          · simp only [hn, if_false]
            exact ⟨Event.workspacesList org search n (Resp.ok page) :: evsI,
              by simp [hi.calls, hc1], by simp [wsCalls, hcI, pageChain, hn]⟩

theorem endlessRuns_never_returns (id : String) (rfuel : Nat) (n : Int) (runs : Runs)
    (w : World Unit) : (ListWaitingRunsLoop endlessRunsService id rfuel n runs w).1 = none := by
  induction rfuel generalizing n runs w with
  | zero => rfl
  | succ f ih =>
    have hc : mayContinue
        { Items := [{ ID := "R0", Status := tfe.RunPending }], NextPage := n + 1 } n = true := by
      simp [mayContinue]
    rw [ListWaitingRunsLoop_continue endlessRunsService id f n runs w
      { Items := [{ ID := "R0", Status := tfe.RunPending }], NextPage := n + 1 } rfl hc]
    exact ih _ _ _

theorem endlessRuns_scan_never_returns (fuel rfuel : Nat) :
    (ListWorkspacesWithRunStatus endlessRunsService "acme" "" tfe.RunCostEstimated fuel rfuel
      (World.start ())).1 = none := by
  cases fuel with
  | zero => rfl
  | succ f =>
    unfold ListWorkspacesWithRunStatus
    rw [ListWorkspacesLoop_ok endlessRunsService "acme" "" tfe.RunCostEstimated rfuel f 0 []
      (World.start ()) (servePage acmePages 0) rfl]
    have hitems : (servePage acmePages 0).Items =
        [{ ID := "ws-1", Name := "W1", AutoApply := true,
           CurrentRun := some { ID := "R1", Status := tfe.RunCostEstimated } },
         { ID := "ws-3", Name := "W3", AutoApply := false, CurrentRun := none }] := by
      decide
    rw [hitems, scanItems_fetch endlessRunsService tfe.RunCostEstimated rfuel _ _ _ _
      (by decide)]
    have hnone : ∀ w : World Unit,
        (ListWaitingRuns endlessRunsService "ws-1" rfuel w).1 = none :=
      fun w => endlessRuns_never_returns "ws-1" rfuel 0 [] w
    simp only [hnone]

/-- Claim C8 as amended.  For every service the workspace-list calls of one
scan form a chain: the first requests page 0, a further call follows a page
only when its next-page indicator exceeds the current page number and
requests that indicator, and a scan that returns without error ends on a page
whose indicator is at most the page number.  When the workspace listing has
`N` pages (page 0 served as the first page), every scan requests a prefix of
the pages 0, 2, 3, ..., `N`, so at most `N` pages, none twice and none out of
turn; a scan that returns without error has requested all of them and was
served exactly the pages of the listing, in order; the scan returns whenever
the fuel covers the `N` pages and the run listings have a bounded next-page
indicator; and when in addition no run-list call fails it returns without
error, having requested every page exactly once in increasing order. -/
theorem C8_scanner_pagination :
    (∀ (σ : Type) (S : Service σ) (org search : String) (target : tfe.RunStatus)
        (fuel rfuel : Nat) (w : World σ),
        ∃ evs,
          (ListWorkspacesWithRunStatus S org search target fuel rfuel w).2.calls =
            w.calls ++ evs ∧
          pageChain 0 (wsCalls evs)
            ((ListWorkspacesWithRunStatus S org search target fuel rfuel w).1.map Prod.snd) =
              true) ∧
    (∀ (σ : Type) (S : Service σ) (pages : List (List tfe.Workspace))
        (org search : String) (target : tfe.RunStatus) (fuel rfuel : Nat) (w : World σ),
        pages ≠ [] →
        (∀ s org2 search2 p,
          (S.WorkspacesList s org2 search2 p).1 = Resp.ok (servePage pages p)) →
        ∃ evs,
          (ListWorkspacesWithRunStatus S org search target fuel rfuel w).2.calls =
            w.calls ++ evs ∧
          wsRequests evs <+: pageNumbers pages.length ∧
          (∀ out,
            (ListWorkspacesWithRunStatus S org search target fuel rfuel w).1 =
              some (out, none) →
            wsRequests evs = pageNumbers pages.length ∧
            (wsPages evs).map (fun p => p.Items) = pages) ∧
          (∀ B : Nat,
            (∀ s id p page, (S.RunsList s id p).1 = Resp.ok page → page.NextPage ≤ B) →
            pages.length ≤ fuel → B < rfuel →
            ∃ out oerr,
              (ListWorkspacesWithRunStatus S org search target fuel rfuel w).1 =
                some (out, oerr)) ∧
          (∀ B : Nat,
            (∀ s id p page, (S.RunsList s id p).1 = Resp.ok page → page.NextPage ≤ B) →
            (∀ s id p, ∃ page, (S.RunsList s id p).1 = Resp.ok page) →
            pages.length ≤ fuel → B < rfuel →
            ∃ out,
              (ListWorkspacesWithRunStatus S org search target fuel rfuel w).1 =
                some (out, none) ∧
              wsRequests evs = pageNumbers pages.length ∧
              (wsPages evs).map (fun p => p.Items) = pages)) := by
  constructor
  · intro σ S org search target fuel rfuel w
    exact ListWorkspacesLoop_chain S org search target rfuel fuel 0 [] w
  · intro σ S pages org search target fuel rfuel w hne hW
    have hlen : 1 ≤ pages.length := by
      cases pages with
      | nil => exact absurd rfl hne
      | cons a l => simp
    obtain ⟨evs, hcalls, hpre, hdone, hreturns⟩ :=
      pagedScan S pages org search target rfuel hW fuel (pages.length - 1) 1 0
        [] w (le_refl 1) (by omega) (Or.inr ⟨rfl, rfl⟩)
    have hdone2 : ∀ out,
        (ListWorkspacesLoop S org search target rfuel fuel 0 [] w).1 = some (out, none) →
        wsRequests evs = pageNumbers pages.length ∧
        (wsPages evs).map (fun p => p.Items) = pages := by
      intro out hout
      simpa [pageNumbers] using hdone out hout
    have hsome : ∀ B : Nat,
        (∀ s id p page, (S.RunsList s id p).1 = Resp.ok page → page.NextPage ≤ B) →
        pages.length ≤ fuel → B < rfuel →
        (ListWorkspacesLoop S org search target rfuel fuel 0 [] w).1 ≠ none := by
      intro B hR hfuel hrfuel
      have hret : ∀ id (w : World σ), (ListWaitingRuns S id rfuel w).1 ≠ none := by
        intro id w
        exact ListWaitingRunsLoop_returns S B hR id rfuel 0 [] w (by simpa using hrfuel)
      exact hreturns hret (by omega)
    refine ⟨evs, hcalls, by simpa [pageNumbers] using hpre, hdone2, ?_, ?_⟩
    · intro B hR hfuel hrfuel
      cases hres : (ListWorkspacesLoop S org search target rfuel fuel 0 [] w).1 with
      | none => exact absurd hres (hsome B hR hfuel hrfuel)
      | some v => exact ⟨v.1, v.2, hres⟩
    · intro B hR hok hfuel hrfuel
      obtain ⟨evs2, hs⟩ := ListWorkspacesLoop_spec S org search target rfuel fuel 0 [] w
      have heq : evs2 = evs := List.append_cancel_left (hs.calls.symm.trans hcalls)
      subst heq
      have hallok : ∀ ev ∈ evs2, ev.failure = none := by
        intro ev hev
        have hg := hs.genuine ev hev
        have hl := hs.lists ev hev
        cases ev with
        | workspacesList org2 search2 p r =>
          obtain ⟨s, hr⟩ := hg
          rw [hW s org2 search2 p] at hr
          subst hr
          rfl
        | runsList id p r =>
          obtain ⟨s, hr⟩ := hg
          obtain ⟨page, hp⟩ := hok s id p
          rw [hp] at hr
          subst hr
          rfl
        | runsApply _ _ _ => simp [Event.isList] at hl
        | runsDiscard _ _ _ => simp [Event.isList] at hl
        | runsCancel _ _ _ => simp [Event.isList] at hl
      have hst := hs.stop
      cases hres : (ListWorkspacesLoop S org search target rfuel fuel 0 [] w).1 with
      | none => exact absurd hres (hsome B hR hfuel hrfuel)
      | some v =>
        obtain ⟨out, oerr⟩ := v
        cases oerr with
        | none => exact ⟨out, hres, hdone2 out hres⟩
        | some err =>
          rw [hres] at hst
          obtain ⟨pre, last, hpre2, _, hlast⟩ := hst
          have hlastok := hallok last (by simp [hpre2])
          rw [hlast] at hlastok
          simp at hlastok

/-- Claim C8, counterexample.  The workspace listing has two pages.  With a
run-list endpoint that fails, the scan returns the error after requesting
page 0 alone, so page 2 is never requested; with a run-list endpoint that
never ends, the scan does not return, whatever the fuel. -/
theorem C8_counterexample :
    pageNumbers acmePages.length = [0, 2] ∧
    (ListWorkspacesWithRunStatus failingRunsService "acme" "" tfe.RunCostEstimated 5 5
        (World.start ())).1 = some ([], some "boom") ∧
    wsRequests (ListWorkspacesWithRunStatus failingRunsService "acme" "" tfe.RunCostEstimated
        5 5 (World.start ())).2.calls = [0] ∧
    (∀ fuel rfuel : Nat,
      (ListWorkspacesWithRunStatus endlessRunsService "acme" "" tfe.RunCostEstimated fuel rfuel
        (World.start ())).1 = none) :=
  ⟨by decide, by decide, by decide, endlessRuns_scan_never_returns⟩

/-- Claim C8 as amended, witness: the run listings of the scenario organization
have one page each and never fail; the two-page listing is fetched with the
requests 0 and 2, both pages are served and the scan returns W1 and W2
without error. -/
theorem C8_scanner_pagination_witness :
    (ListWorkspacesWithRunStatus listingService "acme" "" tfe.RunCostEstimated 2 1
        (World.start ())).1 = some ([scenarioW1, scenarioW2], none) ∧
    pageNumbers acmePages.length = [0, 2] ∧
    ∃ evs,
      (ListWorkspacesWithRunStatus listingService "acme" "" tfe.RunCostEstimated 2 1
        (World.start ())).2.calls = (World.start ()).calls ++ evs ∧
      wsRequests evs <+: pageNumbers acmePages.length ∧
      ∃ out,
        (ListWorkspacesWithRunStatus listingService "acme" "" tfe.RunCostEstimated 2 1
          (World.start ())).1 = some (out, none) ∧
        wsRequests evs = pageNumbers acmePages.length ∧
        (wsPages evs).map (fun p => p.Items) = acmePages := by
  refine ⟨by decide, by decide, ?_⟩
  obtain ⟨evs, hcalls, hpre, _, _, hfull⟩ :=
    C8_scanner_pagination.2 Unit listingService acmePages "acme" "" tfe.RunCostEstimated 2 1
      (World.start ()) (by decide) (fun _ _ _ _ => rfl)
  refine ⟨evs, hcalls, hpre, hfull 0 ?_ ?_ (by decide) (by decide)⟩
  · intro s id p page h
    simp only [listingService, acmeService] at h
    split_ifs at h <;> simp at h <;> subst h <;> simp
  · intro s id p
    simp only [listingService, acmeService]
    split_ifs <;> exact ⟨_, rfl⟩

end TfeCleanup
